import Mathlib

/-!
Verification development for the stablecoin-wars-backend indexing pipeline.

The definitions below are shallow embeddings of the TypeScript source:
  * `src/indexer/processor.ts` (`syncContract`, `processEvents`,
    `processBlockSummaries`) — daily and per-block aggregation,
  * `src/indexer/adapters/evm.ts` (`getMintBurnEvents`, `getTransactionFee`,
    `getTransactionFees`) — event classification and fee lookup,
  * `src/indexer/aggregator.ts` (`aggregateMetrics`, `aggregateLevel`,
    `aggregatePeriod`) — the rollup engine,
  * `src/indexer/rateLimit.ts` (`acquireToken`) — rate-limiter acquisition,
  * `src/api/routes/metrics.ts` (`aggregateMetrics` helper of the
    GET /api/metrics/:ticker route).

JavaScript `Map` objects are modelled as association lists that preserve
insertion order (`Map.set` replaces in place, fresh keys append at the end),
JS `Set` as order-preserving duplicate-free insertion lists, `bigint` as `Int`,
block numbers and unix timestamps as `Nat`, addresses and tx hashes as
`String`.
-/

namespace StablecoinWars

/-! ## Association-list model of the JS `Map` -/

/-- `Map.get`: first binding of the key, if any. -/
def alookup {α β : Type} [DecidableEq α] : List (α × β) → α → Option β
  | [], _ => none
  | (k, v) :: rest, a => if k = a then some v else alookup rest a

/-- `Map.set`: replace the binding in place if present, else append. -/
def aset {α β : Type} [DecidableEq α] : List (α × β) → α → β → List (α × β)
  | [], a, b => [(a, b)]
  | (k, v) :: rest, a, b =>
    if k = a then (k, b) :: rest else (k, v) :: aset rest a b

/-- `Set.add`: append the element unless already present. -/
def sadd (s : List String) (x : String) : List String :=
  if x ∈ s then s else s ++ [x]

/-! ## Events (src/types/index.ts) -/

/-- `TransferEvent` from src/types/index.ts.  `from`/`to` are renamed
`fromAddr`/`toAddr` because `from` is a Lean keyword. -/
structure TransferEvent where
  blockNumber : Nat
  txHash : String
  fromAddr : String
  toAddr : String
  value : Int
  timestamp : Nat
deriving DecidableEq, Repr

/-- `MintEvent` from src/types/index.ts. -/
structure MintEvent where
  blockNumber : Nat
  txHash : String
  toAddr : String
  value : Int
  timestamp : Nat
deriving DecidableEq, Repr

/-- `BurnEvent` from src/types/index.ts. -/
structure BurnEvent where
  blockNumber : Nat
  txHash : String
  fromAddr : String
  value : Int
  timestamp : Nat
deriving DecidableEq, Repr

/-- The EVM zero address (evm.ts `ZERO_ADDRESS`, also re-declared in
processor.ts `syncContract`). -/
def ZERO_ADDRESS : String := "0x0000000000000000000000000000000000000000"

/-- evm.ts `getMintBurnEvents`: a transfer whose `from` is the zero address is
a mint. -/
def mintEvents (transfers : List TransferEvent) : List MintEvent :=
  (transfers.filter fun t => t.fromAddr = ZERO_ADDRESS).map fun t =>
    { blockNumber := t.blockNumber, txHash := t.txHash, toAddr := t.toAddr,
      value := t.value, timestamp := t.timestamp }

/-- evm.ts `getMintBurnEvents`: a transfer whose `from` is non-zero and whose
`to` is the zero address is a burn (`else if` branch). -/
def burnEvents (transfers : List TransferEvent) : List BurnEvent :=
  (transfers.filter fun t => t.fromAddr ≠ ZERO_ADDRESS ∧ t.toAddr = ZERO_ADDRESS).map fun t =>
    { blockNumber := t.blockNumber, txHash := t.txHash, fromAddr := t.fromAddr,
      value := t.value, timestamp := t.timestamp }

/-- processor.ts `syncContract`: "Filter out mints and burns from transfers to
avoid double counting". -/
def pureTransfers (allTransfers : List TransferEvent) : List TransferEvent :=
  allTransfers.filter fun t => t.fromAddr ≠ ZERO_ADDRESS ∧ t.toAddr ≠ ZERO_ADDRESS

/-! ## Daily aggregation (processor.ts `processEvents`) -/

/-- Seconds per UTC day (`SECONDS_PER_DAY`). -/
def SECONDS_PER_DAY : Nat := 86400

/-- processor.ts `getDateKey`/`setUTCHours(0,0,0,0)`: truncate a unix
timestamp to UTC midnight of its day. -/
def dayKey (ts : Nat) : Nat := ts / SECONDS_PER_DAY * SECONDS_PER_DAY

/-- The in-memory `DailyMetrics` accumulator of processor.ts. -/
structure DailyMetrics where
  date : Nat
  minted : Int
  burned : Int
  txCount : Nat
  senders : List String
  receivers : List String
  totalTransferred : Int
  totalFeesNative : Int
  startBlock : Nat
  endBlock : Nat
deriving DecidableEq, Repr

/-- The fresh accumulator created by `getOrCreateDaily` when the day is not in
the map yet. -/
def freshDaily (key bn : Nat) : DailyMetrics :=
  { date := key, minted := 0, burned := 0, txCount := 0, senders := [],
    receivers := [], totalTransferred := 0, totalFeesNative := 0,
    startBlock := bn, endBlock := bn }

/-- The `startBlock`/`endBlock` widening that `getOrCreateDaily` performs on
every access. -/
def touchDaily (d : DailyMetrics) (bn : Nat) : DailyMetrics :=
  { d with startBlock := min d.startBlock bn, endBlock := max d.endBlock bn }

/-- The daily map of `processEvents` (a JS `Map` keyed by the UTC day). -/
abbrev DailyMap : Type := List (Nat × DailyMetrics)

/-- `getOrCreateDaily` followed by a field mutation `f` on the returned
accumulator. -/
def updateDaily (m : DailyMap) (ts bn : Nat) (f : DailyMetrics → DailyMetrics) :
    DailyMap :=
  let k := dayKey ts
  match alookup m k with
  | some d => aset m k (f (touchDaily d bn))
  | none => m ++ [(k, f (touchDaily (freshDaily k bn) bn))]

/-- One step of the "Process transfers" loop of `processEvents`. -/
def stepTransfer (m : DailyMap) (t : TransferEvent) : DailyMap :=
  updateDaily m t.timestamp t.blockNumber fun d =>
    { d with txCount := d.txCount + 1,
             senders := sadd d.senders t.fromAddr,
             receivers := sadd d.receivers t.toAddr,
             totalTransferred := d.totalTransferred + t.value }

/-- One step of the "Process mints" loop of `processEvents`. -/
def stepMint (m : DailyMap) (e : MintEvent) : DailyMap :=
  updateDaily m e.timestamp e.blockNumber fun d =>
    { d with minted := d.minted + e.value }

/-- One step of the "Process burns" loop of `processEvents`. -/
def stepBurn (m : DailyMap) (e : BurnEvent) : DailyMap :=
  updateDaily m e.timestamp e.blockNumber fun d =>
    { d with burned := d.burned + e.value }

/-- The fee map returned by `adapter.getTransactionFees` (feeUsd is always
null and is omitted). -/
abbrev FeeMap : Type := List (String × Int)

/-- One step of the fee-attribution loop of `processEvents`: the loop ranges
over the (pure) transfer events and adds the fee of the event's txHash when
the fee map has an entry for it (`if (fee)`). -/
def stepFee (fees : FeeMap) (m : DailyMap) (t : TransferEvent) : DailyMap :=
  match alookup fees t.txHash with
  | some fee =>
    updateDaily m t.timestamp t.blockNumber fun d =>
      { d with totalFeesNative := d.totalFeesNative + fee }
  | none => m

/-- processor.ts `processEvents`, up to the database upsert: builds the daily
map from the (already zero-address-filtered) transfers, the mints and the
burns, then attributes fees by iterating over the transfer list again. -/
def processEventsDaily (transfers : List TransferEvent) (mints : List MintEvent)
    (burns : List BurnEvent) (fees : FeeMap) : DailyMap :=
  if transfers = [] ∧ mints = [] ∧ burns = [] then []
  else
    let m := transfers.foldl stepTransfer []
    let m := mints.foldl stepMint m
    let m := burns.foldl stepBurn m
    let txHashes := transfers.foldl (fun s t => sadd s t.txHash) []
    if txHashes = [] then m else transfers.foldl (stepFee fees) m

/-! Field accessors with the "absent day" default, used to state properties of
the daily map. -/

/-- Read one field of the daily row of day `d`, with default `z` when the day
has no row. -/
def fieldAt {α : Type} (g : DailyMetrics → α) (z : α) (m : DailyMap) (d : Nat) :
    α :=
  match alookup m d with
  | some x => g x
  | none => z

/-- `tx_count` recorded for day `d` (0 when the day has no row). -/
def txCountAt (m : DailyMap) (d : Nat) : Nat :=
  fieldAt (fun x => x.txCount) 0 m d

/-- `total_transferred` recorded for day `d`. -/
def totalTransferredAt (m : DailyMap) (d : Nat) : Int :=
  fieldAt (fun x => x.totalTransferred) 0 m d

/-- `minted` recorded for day `d`. -/
def mintedAt (m : DailyMap) (d : Nat) : Int :=
  fieldAt (fun x => x.minted) 0 m d

/-- `burned` recorded for day `d`. -/
def burnedAt (m : DailyMap) (d : Nat) : Int :=
  fieldAt (fun x => x.burned) 0 m d

/-- `total_fees_native` recorded for day `d`. -/
def feesAt (m : DailyMap) (d : Nat) : Int :=
  fieldAt (fun x => x.totalFeesNative) 0 m d

/-- `senders` set recorded for day `d`. -/
def sendersAt (m : DailyMap) (d : Nat) : List String :=
  fieldAt (fun x => x.senders) [] m d

/-- `receivers` set recorded for day `d`. -/
def receiversAt (m : DailyMap) (d : Nat) : List String :=
  fieldAt (fun x => x.receivers) [] m d

/-- The per-day fee total the SPEC describes (claim C2): the sum of the fees
of the distinct tx hashes of that day's events — pure transfers, mints and
burns alike — each hash counted at most once per day.  This definition
follows the spec's words and is compared against the code's
`processEventsDaily`. -/
def specDailyFees (transfers : List TransferEvent) (mints : List MintEvent)
    (burns : List BurnEvent) (fees : FeeMap) (d : Nat) : Int :=
  ((((transfers.filter fun t => dayKey t.timestamp = d).map fun t => t.txHash)
      ++ ((mints.filter fun e => dayKey e.timestamp = d).map fun e => e.txHash)
      ++ ((burns.filter fun e => dayKey e.timestamp = d).map fun e =>
            e.txHash)).dedup.map
    fun h => (alookup fees h).getD 0).sum

/-! ## Per-block materialisation (processor.ts `processBlockSummaries`) -/

/-- The in-memory `BlockData` accumulator of processor.ts.  `timestamp = 0`
means "not yet set from an event" (converted to SQL NULL at upsert time). -/
structure BlockData where
  blockNumber : Nat
  timestamp : Nat
  minted : Int
  burned : Int
  txCount : Nat
  senders : List String
  receivers : List String
  totalTransferred : Int
  totalFeesNative : Int
  totalSupply : Option Int
deriving DecidableEq, Repr

/-- The zero-valued entry created for every block of the `[from, to]` window. -/
def freshBlock (bn : Nat) : BlockData :=
  { blockNumber := bn, timestamp := 0, minted := 0, burned := 0, txCount := 0,
    senders := [], receivers := [], totalTransferred := 0,
    totalFeesNative := 0, totalSupply := none }

/-- The block map of `processBlockSummaries` (a JS `Map` keyed by block
number). -/
abbrev BlockMap : Type := List (Nat × BlockData)

/-- "Initialize all blocks in range with zero values": one entry per block
number of the inclusive range `[fromB, toB]`. -/
def initBlocks (fromB toB : Nat) : BlockMap :=
  (List.range' fromB (toB + 1 - fromB)).map fun bn => (bn, freshBlock bn)

/-- `getOrCreateBlock` followed by a field mutation: looks the block up in the
pre-initialised map, overwrites its `timestamp` with the event's timestamp and
applies `f`.  (The source uses `blocks.get(blockNumber)!`, which throws if the
event's block lies outside the initialised range; events are always fetched
for exactly that range, so the missing-key case below never fires there.) -/
def updateBlock (m : BlockMap) (bn ts : Nat) (f : BlockData → BlockData) :
    BlockMap :=
  match alookup m bn with
  | some b => aset m bn (f { b with timestamp := ts })
  | none => m

/-- One step of the "Process transfers" loop of `processBlockSummaries`. -/
def blockStepTransfer (m : BlockMap) (t : TransferEvent) : BlockMap :=
  updateBlock m t.blockNumber t.timestamp fun b =>
    { b with txCount := b.txCount + 1,
             senders := sadd b.senders t.fromAddr,
             receivers := sadd b.receivers t.toAddr,
             totalTransferred := b.totalTransferred + t.value }

/-- One step of the "Process mints" loop of `processBlockSummaries`. -/
def blockStepMint (m : BlockMap) (e : MintEvent) : BlockMap :=
  updateBlock m e.blockNumber e.timestamp fun b =>
    { b with minted := b.minted + e.value,
             receivers := sadd b.receivers e.toAddr,
             txCount := b.txCount + 1 }

/-- One step of the "Process burns" loop of `processBlockSummaries`. -/
def blockStepBurn (m : BlockMap) (e : BurnEvent) : BlockMap :=
  updateBlock m e.blockNumber e.timestamp fun b =>
    { b with burned := b.burned + e.value,
             senders := sadd b.senders e.fromAddr,
             txCount := b.txCount + 1 }

/-- Fee attribution for one transfer event ("Add fees for all transactions"
loop). -/
def blockFeeTransfer (fees : FeeMap) (m : BlockMap) (t : TransferEvent) :
    BlockMap :=
  match alookup fees t.txHash with
  | some fee =>
    updateBlock m t.blockNumber t.timestamp fun b =>
      { b with totalFeesNative := b.totalFeesNative + fee }
  | none => m

/-- Fee attribution for one mint event. -/
def blockFeeMint (fees : FeeMap) (m : BlockMap) (e : MintEvent) : BlockMap :=
  match alookup fees e.txHash with
  | some fee =>
    updateBlock m e.blockNumber e.timestamp fun b =>
      { b with totalFeesNative := b.totalFeesNative + fee }
  | none => m

/-- Fee attribution for one burn event. -/
def blockFeeBurn (fees : FeeMap) (m : BlockMap) (e : BurnEvent) : BlockMap :=
  match alookup fees e.txHash with
  | some fee =>
    updateBlock m e.blockNumber e.timestamp fun b =>
      { b with totalFeesNative := b.totalFeesNative + fee }
  | none => m

/-- The tx-hash set accumulated while processing transfers, mints and burns in
`processBlockSummaries`. -/
def blockTxHashes (transfers : List TransferEvent) (mints : List MintEvent)
    (burns : List BurnEvent) : List String :=
  let s := transfers.foldl (fun s t => sadd s t.txHash) []
  let s := mints.foldl (fun s e => sadd s e.txHash) s
  burns.foldl (fun s e => sadd s e.txHash) s

/-- processor.ts `processBlockSummaries`, up to the database upserts: builds
the per-block map for the window `[fromB, toB]`. -/
def processBlockSummariesMap (transfers : List TransferEvent)
    (mints : List MintEvent) (burns : List BurnEvent) (fees : FeeMap)
    (fromB toB : Nat) : BlockMap :=
  let m := initBlocks fromB toB
  let m := transfers.foldl blockStepTransfer m
  let m := mints.foldl blockStepMint m
  let m := burns.foldl blockStepBurn m
  if blockTxHashes transfers mints burns = [] then m
  else
    let m := transfers.foldl (blockFeeTransfer fees) m
    let m := mints.foldl (blockFeeMint fees) m
    burns.foldl (blockFeeBurn fees) m

/-- A `blocks` table row as upserted by `processBlockSummaries`
(`block.timestamp > 0 ? new Date(...) : null`). -/
structure BlockRow where
  blockNumber : Nat
  timestamp : Option Nat
  minted : Int
  burned : Int
  txCount : Nat
  totalTransferred : Int
  totalFeesNative : Int
  totalSupply : Option Int
deriving DecidableEq, Repr

/-- Conversion of the in-memory accumulator to the upserted row. -/
def toBlockRow (b : BlockData) : BlockRow :=
  { blockNumber := b.blockNumber,
    timestamp := if 0 < b.timestamp then some b.timestamp else none,
    minted := b.minted, burned := b.burned, txCount := b.txCount,
    totalTransferred := b.totalTransferred,
    totalFeesNative := b.totalFeesNative, totalSupply := b.totalSupply }

/-- The `blocks` rows emitted for one window, in map order. -/
def emittedBlockRows (transfers : List TransferEvent) (mints : List MintEvent)
    (burns : List BurnEvent) (fees : FeeMap) (fromB toB : Nat) :
    List BlockRow :=
  (processBlockSummariesMap transfers mints burns fees fromB toB).map
    fun p => toBlockRow p.2

/-- `block_addresses.address_type`. -/
inductive AddrType
  | sender
  | receiver
  | both
deriving DecidableEq, Repr

/-- The `allAddresses` map built per block before the `block_addresses`
inserts: senders first, then receivers, promoting to `both` when the address
was already recorded as a sender. -/
def blockAddresses (b : BlockData) : List (String × AddrType) :=
  let m := b.senders.foldl (fun acc a => aset acc a AddrType.sender) []
  b.receivers.foldl
    (fun acc a =>
      match alookup acc a with
      | some AddrType.sender => aset acc a AddrType.both
      | some _ => acc
      | none => aset acc a AddrType.receiver) m

/-! ## Batch commit discipline (processor.ts `syncContract` loop body)

For one `[fromB, toB]` window `syncContract` runs `processEvents` (one
`INSERT ... ON CONFLICT` per daily row), then `processBlockSummaries` (per
block: one `blocks` upsert followed by its `block_addresses` inserts), then a
final `UPDATE sync_state SET last_synced_block = toBlock`.  None of these
statements is wrapped in a `transaction(...)` call: each one autocommits on
its own, in the order below. -/

/-- One SQL statement issued while committing a window. -/
inductive BatchWrite
  | metricsUpsert (day : Nat) (row : DailyMetrics)
  | blocksUpsert (row : BlockRow)
  | blockAddrInsert (blockNumber : Nat) (address : String) (addrType : AddrType)
  | syncStateUpdate (toBlock : Nat)
deriving DecidableEq, Repr

/-- The ordered statement sequence of one window commit, as issued by
`syncContract` / `processEvents` / `processBlockSummaries`. -/
def syncBatchWrites (transfers : List TransferEvent) (mints : List MintEvent)
    (burns : List BurnEvent) (fees : FeeMap) (fromB toB : Nat) :
    List BatchWrite :=
  let daily := processEventsDaily transfers mints burns fees
  let blocks := processBlockSummariesMap transfers mints burns fees fromB toB
  (daily.map fun p => BatchWrite.metricsUpsert p.1 p.2)
    ++ (blocks.foldr
        (fun p acc =>
          BatchWrite.blocksUpsert (toBlockRow p.2)
            :: ((blockAddresses p.2).map fun q =>
                  BatchWrite.blockAddrInsert p.1 q.1 q.2)
            ++ acc) [])
    ++ [BatchWrite.syncStateUpdate toB]

/-- A daily `metrics` row as stored in the database (`unique_senders` /
`unique_receivers` are counts, not sets). -/
structure MetricsDailyRow where
  periodStart : Nat
  minted : Int
  burned : Int
  txCount : Nat
  uniqueSenders : Nat
  uniqueReceivers : Nat
  totalTransferred : Int
  totalFeesNative : Int
  startBlock : Nat
  endBlock : Nat
deriving DecidableEq, Repr

/-- The bind parameters of the daily upsert. -/
def toMetricsDailyRow (day : Nat) (d : DailyMetrics) : MetricsDailyRow :=
  { periodStart := day, minted := d.minted, burned := d.burned,
    txCount := d.txCount, uniqueSenders := d.senders.length,
    uniqueReceivers := d.receivers.length,
    totalTransferred := d.totalTransferred,
    totalFeesNative := d.totalFeesNative,
    startBlock := d.startBlock, endBlock := d.endBlock }

/-- `ON CONFLICT ... DO UPDATE` merge rule of the daily metrics upsert
(additive counters, LEAST/GREATEST blocks). -/
def mergeDailyRow (old new : MetricsDailyRow) : MetricsDailyRow :=
  { periodStart := old.periodStart, minted := old.minted + new.minted,
    burned := old.burned + new.burned, txCount := old.txCount + new.txCount,
    uniqueSenders := old.uniqueSenders + new.uniqueSenders,
    uniqueReceivers := old.uniqueReceivers + new.uniqueReceivers,
    totalTransferred := old.totalTransferred + new.totalTransferred,
    totalFeesNative := old.totalFeesNative + new.totalFeesNative,
    startBlock := min old.startBlock new.startBlock,
    endBlock := max old.endBlock new.endBlock }

/-- `ON CONFLICT ... DO UPDATE` merge rule of the `blocks` upsert (additive;
`timestamp` is not touched on conflict). -/
def mergeBlockRow (old new : BlockRow) : BlockRow :=
  { blockNumber := old.blockNumber, timestamp := old.timestamp,
    minted := old.minted + new.minted, burned := old.burned + new.burned,
    txCount := old.txCount + new.txCount,
    totalTransferred := old.totalTransferred + new.totalTransferred,
    totalFeesNative := old.totalFeesNative + new.totalFeesNative,
    totalSupply := old.totalSupply }

/-- The database state touched by one contract's window commit. -/
structure IndexerDb where
  metrics : List (Nat × MetricsDailyRow)
  blocks : List (Nat × BlockRow)
  blockAddrs : List ((Nat × String) × AddrType)
  lastSyncedBlock : Nat
deriving DecidableEq, Repr

/-- Effect of one autocommitted statement on the database. -/
def applyWrite (db : IndexerDb) : BatchWrite → IndexerDb
  | BatchWrite.metricsUpsert day d =>
    let row := toMetricsDailyRow day d
    let merged :=
      match alookup db.metrics day with
      | some old => mergeDailyRow old row
      | none => row
    { db with metrics := aset db.metrics day merged }
  | BatchWrite.blocksUpsert row =>
    let merged :=
      match alookup db.blocks row.blockNumber with
      | some old => mergeBlockRow old row
      | none => row
    { db with blocks := aset db.blocks row.blockNumber merged }
  | BatchWrite.blockAddrInsert bn addr ty =>
    match alookup db.blockAddrs (bn, addr) with
    | some _ => db
    | none => { db with blockAddrs := db.blockAddrs ++ [((bn, addr), ty)] }
  | BatchWrite.syncStateUpdate toBlock =>
    { db with lastSyncedBlock := toBlock }

/-- Executes the statement sequence under autocommit.  `failAt = some k`
means the k-th statement (0-based) raises: statements before it have already
committed and stay committed; the failing statement and everything after it
are not executed.  `failAt = none` is the fully successful run. -/
def runWrites (db : IndexerDb) (ws : List BatchWrite) (failAt : Option Nat) :
    IndexerDb :=
  match failAt with
  | none => ws.foldl applyWrite db
  | some k => (ws.take k).foldl applyWrite db

/-! ## Rollup engine (src/indexer/aggregator.ts) -/

/-- A `metrics` table row as read and written by the rollup engine.  All
periods are unix timestamps in seconds (`period_start`), resolutions are in
seconds. -/
structure MetricsRow where
  contractId : String
  periodStart : Int
  resolution : Int
  totalSupply : Option Int
  minted : Int
  burned : Int
  txCount : Int
  uniqueSenders : Int
  uniqueReceivers : Int
  totalTransferred : Int
  totalFeesNative : Int
  totalFeesUsd : Int
  startBlock : Option Int
  endBlock : Option Int
deriving DecidableEq, Repr

abbrev MetricsDb : Type := List MetricsRow

/-- `RESOLUTIONS` (src/types/index.ts) and `AGGREGATION_LEVELS`
(aggregator.ts): 1d→10d→100d→1000d, ten source periods each. -/
def AGGREGATION_LEVELS : List (Int × Int × Nat) :=
  [(86400, 864000, 10), (864000, 8640000, 10), (8640000, 86400000, 10)]

/-- `date_trunc('day', period_start)` as an epoch computation. -/
def truncDay (ps : Int) : Int := ps - ps % 86400

/-- The `period_group` expression of `aggregateLevel`: the target-resolution
bucket containing the (day-truncated) source period. -/
def periodGroup (ps targetRes : Int) : Int :=
  truncDay ps - truncDay ps % targetRes

/-- The unique key of a `metrics` row:
`(contract_id, period_start, resolution_seconds)`. -/
def rowKey (r : MetricsRow) : String × Int × Int :=
  (r.contractId, r.periodStart, r.resolution)

/-- `INSERT ... ON CONFLICT (contract_id, period_start, resolution_seconds)
DO UPDATE` overwriting every aggregated field: replace the row with the same
key if present, else append. -/
def upsertMetricsRow (db : MetricsDb) (row : MetricsRow) : MetricsDb :=
  if db.any fun r => rowKey r = rowKey row then
    db.map fun r => if rowKey r = rowKey row then row else r
  else db ++ [row]

/-- The `metrics` row carried by the database at one unique key, if any. -/
def findMetricsRow (db : MetricsDb) (c : String) (p res : Int) :
    Option MetricsRow :=
  db.find? fun r => rowKey r = (c, p, res)

/-- The rows of one resolution (the only slice of the database a rollup level
reads or writes). -/
def rowsAtRes (db : MetricsDb) (res : Int) : MetricsDb :=
  db.filter fun r => r.resolution = res

/-- The optional contract filter of `aggregateMetrics(contractId?)`. -/
def matchesContract (filt : Option String) (c : String) : Bool :=
  match filt with
  | none => true
  | some f => c = f

/-- The source rows aggregated for one target period: contract `c`, source
resolution, `period_start ∈ [p, p + tgtRes)`. -/
def windowRows (db : MetricsDb) (c : String) (srcRes p tgtRes : Int) :
    MetricsDb :=
  db.filter fun r =>
    r.contractId = c ∧ r.resolution = srcRes ∧
      p ≤ r.periodStart ∧ r.periodStart < p + tgtRes

/-- The `total_supply` subquery of `aggregatePeriod`: the source row of the
contract with the greatest `period_start` strictly before the end of the
window (`ORDER BY period_start DESC LIMIT 1`). -/
def latestSupplyRow (db : MetricsDb) (c : String) (srcRes bound : Int) :
    Option MetricsRow :=
  (db.filter fun r =>
      r.contractId = c ∧ r.resolution = srcRes ∧ r.periodStart < bound).foldl
    (fun best r =>
      match best with
      | none => some r
      | some b => if b.periodStart < r.periodStart then some r else some b)
    none

/-- SQL `MIN` over a nullable column: NULLs are ignored; NULL on empty. -/
def optMin (acc x : Option Int) : Option Int :=
  match acc, x with
  | none, v => v
  | some a, none => some a
  | some a, some b => some (min a b)

/-- SQL `MAX` over a nullable column. -/
def optMax (acc x : Option Int) : Option Int :=
  match acc, x with
  | none, v => v
  | some a, none => some a
  | some a, some b => some (max a b)

/-- aggregator.ts `aggregatePeriod`: aggregate the source rows of one target
period and upsert the target row. -/
def aggregatePeriod (c : String) (p srcRes tgtRes : Int) (db : MetricsDb) :
    MetricsDb :=
  let periodEnd := p + tgtRes
  let rows := windowRows db c srcRes p tgtRes
  let newRow : MetricsRow :=
    { contractId := c, periodStart := p, resolution := tgtRes,
      totalSupply := (latestSupplyRow db c srcRes periodEnd).bind
        fun r => r.totalSupply,
      minted := (rows.map fun r => r.minted).sum,
      burned := (rows.map fun r => r.burned).sum,
      txCount := (rows.map fun r => r.txCount).sum,
      uniqueSenders := (rows.map fun r => r.uniqueSenders).sum,
      uniqueReceivers := (rows.map fun r => r.uniqueReceivers).sum,
      totalTransferred := (rows.map fun r => r.totalTransferred).sum,
      totalFeesNative := (rows.map fun r => r.totalFeesNative).sum,
      totalFeesUsd := (rows.map fun r => r.totalFeesUsd).sum,
      startBlock := rows.foldl (fun a r => optMin a r.startBlock) none,
      endBlock := rows.foldl (fun a r => optMax a r.endBlock) none }
  upsertMetricsRow db newRow

/-- The candidate `(contract_id, period_group)` pairs of `aggregateLevel`'s
`source_periods`/`grouped` CTEs (deduplicated GROUP BY keys). -/
def groupKeys (db : MetricsDb) (srcRes tgtRes : Int) (filt : Option String) :
    List (String × Int) :=
  ((db.filter fun r =>
      r.resolution = srcRes ∧ matchesContract filt r.contractId = true).map
    fun r => (r.contractId, periodGroup r.periodStart tgtRes)).dedup

/-- `COUNT(*)` of source periods in one group. -/
def groupCount (db : MetricsDb) (srcRes tgtRes : Int) (filt : Option String)
    (c : String) (g : Int) : Nat :=
  ((db.filter fun r =>
      r.resolution = srcRes ∧ matchesContract filt r.contractId = true).filter
    fun r => r.contractId = c ∧ periodGroup r.periodStart tgtRes = g).length

/-- The `NOT EXISTS` subquery: a target-resolution row already sits at
`(contract, period_group)`. -/
def existsTargetRow (db : MetricsDb) (c : String) (g tgtRes : Int) : Bool :=
  db.any fun r =>
    r.contractId = c ∧ r.resolution = tgtRes ∧ r.periodStart = g

/-- The pending aggregations of one level: groups with at least
`periodsToAggregate` source rows and no target row yet. -/
def pendingAggregations (db : MetricsDb) (srcRes tgtRes : Int) (n : Nat)
    (filt : Option String) : List (String × Int) :=
  (groupKeys db srcRes tgtRes filt).filter fun cg =>
    n ≤ groupCount db srcRes tgtRes filt cg.1 cg.2 ∧
      existsTargetRow db cg.1 cg.2 tgtRes = false

/-- aggregator.ts `aggregateLevel`: compute the pending groups once, then run
`aggregatePeriod` for each of them against the evolving database. -/
def aggregateLevel (srcRes tgtRes : Int) (n : Nat) (filt : Option String)
    (db : MetricsDb) : MetricsDb :=
  (pendingAggregations db srcRes tgtRes n filt).foldl
    (fun acc cg => aggregatePeriod cg.1 cg.2 srcRes tgtRes acc) db

/-- aggregator.ts `aggregateMetrics`: the three levels in order. -/
def aggregateMetricsFn (filt : Option String) (db : MetricsDb) : MetricsDb :=
  AGGREGATION_LEVELS.foldl
    (fun acc lvl => aggregateLevel lvl.1 lvl.2.1 lvl.2.2 filt acc) db

/-! ## Sync cursor writes (processor.ts `syncContract` main loop)

The loop commits `last_synced_block = toBlock` after every window and, when a
shutdown is requested at the top of an iteration, writes
`last_synced_block = fromBlock - 1` and returns.  The shutdown flag is
modelled as a predicate on the iteration's `fromBlock` (it increases strictly
per iteration, so this loses no generality).  The recursion is fuelled; every
theorem supplies enough fuel via `syncCursorWrites`. -/

/-- The successive values written to `sync_state.last_synced_block` by the
`while (fromBlock <= currentBlock)` loop, starting at `fromBlock` with `fuel`
remaining iterations. -/
def syncCursorLoop (shutdown : Nat → Bool) (maxBlocksPerQuery head : Nat) :
    Nat → Nat → List Nat
  | _, 0 => []
  | fromBlock, fuel + 1 =>
    if fromBlock ≤ head then
      if shutdown fromBlock then [fromBlock - 1]
      else
        let toBlock := min (fromBlock + maxBlocksPerQuery - 1) head
        toBlock ::
          syncCursorLoop shutdown maxBlocksPerQuery head (toBlock + 1) fuel
    else []

/-- All cursor writes of one `syncContract` run that starts from
`last_synced_block = lastSynced` with chain head `head` and endpoint batch
size `maxBlocksPerQuery`. -/
def syncCursorWrites (shutdown : Nat → Bool)
    (maxBlocksPerQuery lastSynced head : Nat) : List Nat :=
  syncCursorLoop shutdown maxBlocksPerQuery head (lastSynced + 1)
    (head + 1 - lastSynced)

/-- The reset performed by the POST /api/sync/:contractId/reset route
(sync.ts): `last_synced_block = 0`. -/
def operatorResetWrite : Nat := 0

/-- The re-initialisation performed by `discoverContract`:
`last_synced_block = creationBlock - 1`. -/
def discoveryResetWrite (creationBlock : Nat) : Nat := creationBlock - 1

/-! ## EVM fee lookup (src/indexer/adapters/evm.ts) -/

/-- `MAX_RECEIPT_RETRIES`. -/
def MAX_RECEIPT_RETRIES : Nat := 5

/-- `INITIAL_RETRY_DELAY_MS`. -/
def INITIAL_RETRY_DELAY_MS : Nat := 500

/-- `INITIAL_RETRY_DELAY_MS * Math.pow(2, attempt)`. -/
def retryDelayMs (attempt : Nat) : Nat :=
  INITIAL_RETRY_DELAY_MS * 2 ^ attempt

/-- What one `getTransactionReceipt` attempt observes. -/
inductive ReceiptOutcome
  | found (fee : Int)
  | notFound
  | rpcFailed
deriving DecidableEq, Repr

/-- The retry loop of `getTransactionFee`: attempt `attempt`, with
`remaining` attempts still allowed (initially `MAX_RECEIPT_RETRIES`).
Returns the result together with the backoff delays slept between
attempts. -/
def getTransactionFeeGo (oracle : Nat → ReceiptOutcome) :
    Nat → Nat → Except String Int × List Nat
  | _, 0 => (Except.error "no attempts", [])
  | attempt, remaining + 1 =>
    match oracle attempt with
    | ReceiptOutcome.found fee => (Except.ok fee, [])
    | ReceiptOutcome.notFound =>
      if remaining = 0 then (Except.error "transaction not found", [])
      else
        let r := getTransactionFeeGo oracle (attempt + 1) remaining
        (r.1, retryDelayMs attempt :: r.2)
    | ReceiptOutcome.rpcFailed =>
      if remaining = 0 then (Except.error "rpc error", [])
      else
        let r := getTransactionFeeGo oracle (attempt + 1) remaining
        (r.1, retryDelayMs attempt :: r.2)

/-- evm.ts `getTransactionFee` for one tx hash, given the oracle of per-attempt
receipt outcomes. -/
def getTransactionFee (oracle : Nat → ReceiptOutcome) :
    Except String Int × List Nat :=
  getTransactionFeeGo oracle 0 MAX_RECEIPT_RETRIES

/-- What one tx hash contributes to the bulk result map: its fee on success,
`0` when `getTransactionFee` exhausted its retries (the `catch` branch of
`getTransactionFees`). -/
def bulkFeeFor (oracle : String → Nat → ReceiptOutcome) (h : String) : Int :=
  match (getTransactionFee (oracle h)).1 with
  | Except.ok f => f
  | Except.error _ => 0

/-- The `batchSize = 5` chunking of the bulk fee loop. -/
def chunk5 (l : List String) : List (List String) :=
  if l = [] then [] else l.take 5 :: chunk5 (l.drop 5)
termination_by l.length
decreasing_by
  cases l with
  | nil => simp_all
  | cons a t =>
    simp only [List.length_drop, List.length_cons]
    omega

/-- The batch loop of `getTransactionFees`: per batch, first the shutdown
check (`break` abandons the remaining batches), then every hash of the batch
stores its result in the map. -/
def getTransactionFeesGo (oracle : String → Nat → ReceiptOutcome)
    (sd : Bool) : List (List String) → List (String × Int) →
    List (String × Int)
  | [], res => res
  | b :: rest, res =>
    if sd then res
    else getTransactionFeesGo oracle sd rest
      (b.foldl (fun r h => aset r h (bulkFeeFor oracle h)) res)

/-- evm.ts `getTransactionFees`: bulk fee lookup over `txHashes`, `sd` being
the process-wide shutdown flag sampled at each batch boundary. -/
def getTransactionFees (oracle : String → Nat → ReceiptOutcome) (sd : Bool)
    (txHashes : List String) : List (String × Int) :=
  getTransactionFeesGo oracle sd (chunk5 txHashes) []

/-! ## Rate limiter acquisition (src/indexer/rateLimit.ts `acquireToken`)

`acquireToken` races `job.finished()` against a 120 000 ms timer
(`Promise.race([finishPromise, timeoutPromise])`).  The environment is the
time at which the Bull queue grants the token (`none` = never); the race
resolves to whichever side settles first. -/

/-- The 2-minute hard timeout of `acquireToken`. -/
def RATE_LIMIT_ACQUIRE_TIMEOUT_MS : Nat := 120000

/-- Result of the race. -/
inductive AcquireOutcome
  | granted
  | timedOut
deriving DecidableEq, Repr

/-- rateLimit.ts `acquireToken`: outcome and elapsed wall time of one token
acquisition whose grant would arrive at `grantAt` milliseconds. -/
def acquireToken (grantAt : Option Nat) : AcquireOutcome × Nat :=
  match grantAt with
  | some t =>
    if t < RATE_LIMIT_ACQUIRE_TIMEOUT_MS then (AcquireOutcome.granted, t)
    else (AcquireOutcome.timedOut, RATE_LIMIT_ACQUIRE_TIMEOUT_MS)
  | none => (AcquireOutcome.timedOut, RATE_LIMIT_ACQUIRE_TIMEOUT_MS)

/-! ## GET /api/metrics/:ticker totals (src/api/routes/metrics.ts) -/

/-- A `MetricsValues` object: requested field name → value; `some none` is a
field present with SQL NULL, `none` (absent binding) a field never set. -/
abbrev ApiValues : Type := List (String × Option Int)

/-- metrics.ts `createEmptyMetrics`: every requested field starts at zero. -/
def createEmptyMetrics (fields : List String) : ApiValues :=
  fields.map fun f => (f, some 0)

/-- `BigInt(x || '0')` / `(x || 0)`: an absent field or a NULL value counts
as zero. -/
def fieldOrZero (v : Option (Option Int)) : Int :=
  match v with
  | some (some x) => x
  | _ => 0

/-- metrics.ts `filterMetrics`: restrict a row object to the requested
fields that it actually carries. -/
def filterMetricsApi (row : ApiValues) (fields : List String) : ApiValues :=
  fields.foldl
    (fun m f =>
      match alookup row f with
      | some v => m ++ [(f, v)]
      | none => m) []

/-- metrics.ts `aggregateMetrics`: for every requested field, add the
network's value into the running total.  All three branches of the source
(`total_supply`, the integer counters, and the bigint strings) perform the
same addition. -/
def aggregateMetricsApi (total netw : ApiValues) (fields : List String) :
    ApiValues :=
  fields.foldl
    (fun tot f =>
      aset tot f
        (some (fieldOrZero (alookup tot f) + fieldOrZero (alookup netw f))))
    total

/-- One row of the metrics query for a fixed period: the network name and the
row's column values. -/
structure ApiRow where
  networkName : String
  values : ApiValues
deriving DecidableEq, Repr

/-- The `total` object built for one period by the route's row loop. -/
def buildPeriodTotal (rows : List ApiRow) (fields : List String) : ApiValues :=
  rows.foldl
    (fun tot r => aggregateMetricsApi tot (filterMetricsApi r.values fields) fields)
    (createEmptyMetrics fields)

/-- The `networks` object built for one period (later rows with the same
network name overwrite earlier ones, as JS object assignment does). -/
def buildPeriodNetworks (rows : List ApiRow) (fields : List String) :
    List (String × ApiValues) :=
  rows.foldl
    (fun m r => aset m r.networkName (filterMetricsApi r.values fields)) []

/-! # Theorems -/

/-! ## Lemmas about the association-list operations -/

theorem alookup_aset_self {α β : Type} [DecidableEq α]
    (m : List (α × β)) (a : α) (b : β) : alookup (aset m a b) a = some b := by
  induction m with
  | nil => simp [aset, alookup]
  | cons kv rest ih =>
    obtain ⟨k, v⟩ := kv
    by_cases h : k = a <;> simp [aset, alookup, h, ih]

theorem alookup_aset_other {α β : Type} [DecidableEq α]
    (m : List (α × β)) (a : α) (b : β) (a' : α) (hne : a' ≠ a) :
    alookup (aset m a b) a' = alookup m a' := by
  have hne' : a ≠ a' := fun h => hne h.symm
  induction m with
  | nil => simp [aset, alookup, hne']
  | cons kv rest ih =>
    obtain ⟨k, v⟩ := kv
    by_cases h : k = a
    · subst h
      simp [aset, alookup, hne']
    · by_cases h' : k = a'
      · subst h'
        simp [aset, alookup, h, hne, hne']
      · simp [aset, alookup, h, h', ih]

theorem alookup_append_single {α β : Type} [DecidableEq α]
    (m : List (α × β)) (a : α) (b : β) (a' : α) :
    alookup (m ++ [(a, b)]) a' =
      match alookup m a' with
      | some v => some v
      | none => if a = a' then some b else none := by
  induction m with
  | nil => simp [alookup]
  | cons kv rest ih =>
    obtain ⟨k, v⟩ := kv
    by_cases h : k = a' <;> simp [alookup, h, ih]

/-! ## C9: rate-limiter acquisition is time-bounded -/

/-- Claim C9: every rate-limiter token acquisition has a hard per-call
timeout of 120 seconds: `acquireToken` either completes with a granted token
(exactly when the Bull grant arrives within the window) or fails with the
timeout error; its elapsed wall time never exceeds 120 000 ms, so it can never
block the caller indefinitely. -/
theorem acquireToken_timeout_bound (grantAt : Option Nat) :
    (acquireToken grantAt).2 ≤ RATE_LIMIT_ACQUIRE_TIMEOUT_MS ∧
      ((acquireToken grantAt).1 = AcquireOutcome.granted ↔
        ∃ t, grantAt = some t ∧ t < RATE_LIMIT_ACQUIRE_TIMEOUT_MS) := by
  cases grantAt with
  | none => simp [acquireToken]
  | some t =>
    by_cases h : t < RATE_LIMIT_ACQUIRE_TIMEOUT_MS
    · simp only [acquireToken, h, if_true]
      exact ⟨le_of_lt h, by simp [h]⟩
    · simp only [acquireToken, h, if_false]
      refine ⟨le_refl _, ?_⟩
      constructor
      · intro hc
        exact absurd hc (by simp)
      · rintro ⟨t', ht', hlt⟩
        injection ht' with heq
        exact absurd (heq ▸ hlt) h

/-! ## C6: the sync cursor is non-decreasing within a sync run -/

theorem syncCursorLoop_chain (shutdown : Nat → Bool) (B head : Nat)
    (hB : 1 ≤ B) :
    ∀ fuel fromBlock,
      List.Chain' (· ≤ ·)
        ((fromBlock - 1) :: syncCursorLoop shutdown B head fromBlock fuel)
  | 0, fromBlock => by simp [syncCursorLoop]
  | fuel + 1, fromBlock => by
    by_cases hle : fromBlock ≤ head
    · by_cases hsd : shutdown fromBlock
      · simp [syncCursorLoop, hle, hsd]
      · have ih := syncCursorLoop_chain shutdown B head hB fuel
          (min (fromBlock + B - 1) head + 1)
        have hfb : fromBlock ≤ min (fromBlock + B - 1) head :=
          le_min (by omega) hle
        simp only [syncCursorLoop, hle, if_true, hsd, Bool.false_eq_true,
          if_false] at *
        rw [List.chain'_cons]
        exact ⟨by omega, by simpa using ih⟩
    · simp [syncCursorLoop, hle]

theorem syncCursorLoop_lowerBound (shutdown : Nat → Bool) (B head : Nat) :
    ∀ fuel fromBlock w,
      w ∈ syncCursorLoop shutdown B head fromBlock fuel → fromBlock - 1 ≤ w
  | 0, fromBlock, w => by simp [syncCursorLoop]
  | fuel + 1, fromBlock, w => by
    by_cases hle : fromBlock ≤ head
    · by_cases hsd : shutdown fromBlock
      · simp [syncCursorLoop, hle, hsd]
        omega
      · simp only [syncCursorLoop, hle, if_true, hsd, Bool.false_eq_true,
          if_false, List.mem_cons]
        rintro (rfl | hmem)
        · omega
        · have := syncCursorLoop_lowerBound shutdown B head fuel
            (min (fromBlock + B - 1) head + 1) w hmem
          omega
    · simp [syncCursorLoop, hle]

/-- Claim C6: within one `syncContract` run the successive values written to
`sync_state.last_synced_block` form a non-decreasing chain starting from the
previous cursor, and no write is below the starting cursor — the cursor is
lowered only by the explicit resets (`operatorResetWrite`, i.e. the
POST /reset route, and `discoveryResetWrite`, i.e. re-discovery), never by a
committed sync batch. -/
theorem syncContract_cursor_monotone (shutdown : Nat → Bool)
    (maxBlocksPerQuery lastSynced head : Nat) (hB : 1 ≤ maxBlocksPerQuery) :
    List.Chain' (· ≤ ·)
      (lastSynced ::
        syncCursorWrites shutdown maxBlocksPerQuery lastSynced head) ∧
      ∀ w ∈ syncCursorWrites shutdown maxBlocksPerQuery lastSynced head,
        lastSynced ≤ w := by
  constructor
  · have h := syncCursorLoop_chain shutdown maxBlocksPerQuery head hB
      (head + 1 - lastSynced) (lastSynced + 1)
    simpa [syncCursorWrites] using h
  · intro w hw
    have h := syncCursorLoop_lowerBound shutdown maxBlocksPerQuery head
      (head + 1 - lastSynced) (lastSynced + 1) w (by simpa [syncCursorWrites] using hw)
    omega

/-- Witness for C6 at a concrete run: cursor 99, head 112, batch size 5, a
shutdown request arriving from block 107 on. -/
theorem syncContract_cursor_monotone_witness :
    (1 ≤ 5) ∧
      (List.Chain' (· ≤ ·)
        (99 :: syncCursorWrites (fun n => decide (107 ≤ n)) 5 99 112) ∧
        ∀ w ∈ syncCursorWrites (fun n => decide (107 ≤ n)) 5 99 112,
          99 ≤ w) :=
  ⟨by decide,
    syncContract_cursor_monotone (fun n => decide (107 ≤ n)) 5 99 112
      (by decide)⟩

/-! ## C7: fee lookup retry budget, backoff shape, bulk totality -/

theorem feeGo_delays_len (oracle : Nat → ReceiptOutcome) :
    ∀ (remaining attempt : Nat),
      (getTransactionFeeGo oracle attempt remaining).2.length ≤ remaining - 1
  | 0, _ => by simp [getTransactionFeeGo]
  | remaining + 1, attempt => by
    cases h : oracle attempt with
    | found fee => simp [getTransactionFeeGo, h]
    | notFound =>
      by_cases hr : remaining = 0
      · simp [getTransactionFeeGo, h, hr]
      · have ih := feeGo_delays_len oracle remaining (attempt + 1)
        simp only [getTransactionFeeGo, h, hr, if_false, List.length_cons]
        omega
    | rpcFailed =>
      by_cases hr : remaining = 0
      · simp [getTransactionFeeGo, h, hr]
      · have ih := feeGo_delays_len oracle remaining (attempt + 1)
        simp only [getTransactionFeeGo, h, hr, if_false, List.length_cons]
        omega

theorem feeGo_delays_exp (oracle : Nat → ReceiptOutcome) :
    ∀ (remaining attempt : Nat),
      (getTransactionFeeGo oracle attempt remaining).2 =
        (List.range (getTransactionFeeGo oracle attempt remaining).2.length).map
          fun i => retryDelayMs (attempt + i)
  | 0, _ => by simp [getTransactionFeeGo]
  | remaining + 1, attempt => by
    have shift : ∀ i, attempt + 1 + i = attempt + (i + 1) := by omega
    cases h : oracle attempt with
    | found fee => simp [getTransactionFeeGo, h]
    | notFound =>
      by_cases hr : remaining = 0
      · simp [getTransactionFeeGo, h, hr]
      · have ih := feeGo_delays_exp oracle remaining (attempt + 1)
        simp only [shift] at ih
        simp only [getTransactionFeeGo, h, hr, if_false, List.length_cons]
        rw [List.range_succ_eq_map, List.map_cons, List.map_map]
        refine List.cons_eq_cons.mpr ⟨by simp, ?_⟩
        rw [ih]
        simp [Function.comp, Nat.succ_eq_add_one]
    | rpcFailed =>
      by_cases hr : remaining = 0
      · simp [getTransactionFeeGo, h, hr]
      · have ih := feeGo_delays_exp oracle remaining (attempt + 1)
        simp only [shift] at ih
        simp only [getTransactionFeeGo, h, hr, if_false, List.length_cons]
        rw [List.range_succ_eq_map, List.map_cons, List.map_map]
        refine List.cons_eq_cons.mpr ⟨by simp, ?_⟩
        rw [ih]
        simp [Function.comp, Nat.succ_eq_add_one]

theorem feeGo_allFail (oracle : Nat → ReceiptOutcome) :
    ∀ (remaining attempt : Nat),
      (∀ i, attempt ≤ i → i < attempt + remaining →
        ∀ f, oracle i ≠ ReceiptOutcome.found f) →
      ∃ e, (getTransactionFeeGo oracle attempt remaining).1 = Except.error e
  | 0, attempt, _ => by simp [getTransactionFeeGo]
  | remaining + 1, attempt, hfail => by
    cases h : oracle attempt with
    | found fee =>
      exact absurd h (hfail attempt (le_refl _) (by omega) fee)
    | notFound =>
      by_cases hr : remaining = 0
      · simp [getTransactionFeeGo, h, hr]
      · have ih := feeGo_allFail oracle remaining (attempt + 1)
          (fun i h1 h2 => hfail i (by omega) (by omega))
        simpa [getTransactionFeeGo, h, hr] using ih
    | rpcFailed =>
      by_cases hr : remaining = 0
      · simp [getTransactionFeeGo, h, hr]
      · have ih := feeGo_allFail oracle remaining (attempt + 1)
          (fun i h1 h2 => hfail i (by omega) (by omega))
        simpa [getTransactionFeeGo, h, hr] using ih

theorem alookup_foldl_aset (g : String → Int) :
    ∀ (b : List String) (res : List (String × Int)) (x : String),
      alookup (b.foldl (fun r h => aset r h (g h)) res) x =
        if x ∈ b then some (g x) else alookup res x
  | [], res, x => by simp
  | a :: t, res, x => by
    have ih := alookup_foldl_aset g t (aset res a (g a)) x
    simp only [List.foldl_cons, ih, List.mem_cons]
    by_cases hmem : x ∈ t
    · simp [hmem]
    · by_cases hx : x = a
      · subst hx
        simp [hmem, alookup_aset_self]
      · simp [hmem, hx, alookup_aset_other res a (g a) x hx]

theorem feesGo_notMem (oracle : String → Nat → ReceiptOutcome) :
    ∀ (cs : List (List String)) (res : List (String × Int)) (x : String),
      (∀ b ∈ cs, x ∉ b) →
      alookup (getTransactionFeesGo oracle false cs res) x = alookup res x
  | [], res, x, _ => by simp [getTransactionFeesGo]
  | c :: rest, res, x, hnot => by
    have ih := feesGo_notMem oracle rest
      (c.foldl (fun r h => aset r h (bulkFeeFor oracle h)) res) x
      (fun b hb => hnot b (List.mem_cons_of_mem _ hb))
    simp only [getTransactionFeesGo, Bool.false_eq_true, if_false] at ih ⊢
    rw [ih, alookup_foldl_aset]
    simp [hnot c (List.mem_cons_self _ _)]

theorem feesGo_mem (oracle : String → Nat → ReceiptOutcome) :
    ∀ (cs : List (List String)) (res : List (String × Int)) (x : String),
      (∃ b ∈ cs, x ∈ b) →
      alookup (getTransactionFeesGo oracle false cs res) x =
        some (bulkFeeFor oracle x)
  | [], _, x, hex => by simp at hex
  | c :: rest, res, x, hex => by
    by_cases hrest : ∃ b ∈ rest, x ∈ b
    · have ih := feesGo_mem oracle rest
        (c.foldl (fun r h => aset r h (bulkFeeFor oracle h)) res) x hrest
      simpa [getTransactionFeesGo] using ih
    · have hc : x ∈ c := by
        rcases hex with ⟨b, hb, hxb⟩
        rcases List.mem_cons.mp hb with rfl | hb'
        · exact hxb
        · exact absurd ⟨b, hb', hxb⟩ hrest
      have hpres := feesGo_notMem oracle rest
        (c.foldl (fun r h => aset r h (bulkFeeFor oracle h)) res) x
        (fun b hb => fun hxb => hrest ⟨b, hb, hxb⟩)
      simp only [getTransactionFeesGo, Bool.false_eq_true, if_false] at hpres ⊢
      rw [hpres, alookup_foldl_aset]
      simp [hc]

theorem chunk5_nil : chunk5 [] = [] := by
  rw [chunk5]
  simp

theorem chunk5_cons (l : List String) (h : l ≠ []) :
    chunk5 l = l.take 5 :: chunk5 (l.drop 5) := by
  rw [chunk5]
  simp [h]

theorem chunk5_mem (x : String) :
    ∀ (n : Nat) (l : List String), l.length ≤ n →
      ((∃ b ∈ chunk5 l, x ∈ b) ↔ x ∈ l)
  | 0, l, hlen => by
    have : l = [] := List.eq_nil_of_length_eq_zero (Nat.le_zero.mp hlen)
    subst this
    simp [chunk5_nil]
  | n + 1, l, hlen => by
    by_cases h : l = []
    · subst h
      simp [chunk5_nil]
    · have hlen' : (l.drop 5).length ≤ n := by
        have : 1 ≤ l.length := List.length_pos.mpr h
        simp only [List.length_drop]
        omega
      have ih := chunk5_mem x n (l.drop 5) hlen'
      rw [chunk5_cons l h]
      constructor
      · rintro ⟨b, hb, hxb⟩
        rcases List.mem_cons.mp hb with rfl | hb'
        · exact List.mem_of_mem_take hxb
        · have : x ∈ l.drop 5 := ih.mp ⟨b, hb', hxb⟩
          exact List.mem_of_mem_drop this
      · intro hx
        have : x ∈ l.take 5 ++ l.drop 5 := by
          rw [List.take_append_drop]
          exact hx
        rcases List.mem_append.mp this with htake | hdrop
        · exact ⟨l.take 5, List.mem_cons_self _ _, htake⟩
        · rcases ih.mpr hdrop with ⟨b, hb, hxb⟩
          exact ⟨b, List.mem_cons_of_mem _ hb, hxb⟩

/-- Claim C7: the EVM single-transaction fee lookup makes at most
`MAX_RECEIPT_RETRIES = 5` attempts (hence at most 4 backoff sleeps), the
sleeps form the exponential sequence 500·2^k ms starting at
`INITIAL_RETRY_DELAY_MS = 500`, and the bulk lookup is total while no
shutdown is requested: every requested tx hash has an entry in the returned
map, which is `0` when all five attempts for that hash fail — so the
enclosing batch can still commit. -/
theorem evm_fee_retry_and_bulk_totality
    (oracle : String → Nat → ReceiptOutcome) (txHashes : List String)
    (h : String) (hmem : h ∈ txHashes) :
    (getTransactionFee (oracle h)).2.length < MAX_RECEIPT_RETRIES ∧
      (getTransactionFee (oracle h)).2 =
        (List.range (getTransactionFee (oracle h)).2.length).map retryDelayMs ∧
      retryDelayMs 0 = INITIAL_RETRY_DELAY_MS ∧
      alookup (getTransactionFees oracle false txHashes) h =
        some (bulkFeeFor oracle h) ∧
      ((∀ i, i < MAX_RECEIPT_RETRIES →
          ∀ f, oracle h i ≠ ReceiptOutcome.found f) →
        bulkFeeFor oracle h = 0) := by
  refine ⟨?_, ?_, ?_, ?_, ?_⟩
  · have := feeGo_delays_len (oracle h) MAX_RECEIPT_RETRIES 0
    simp only [getTransactionFee]
    simp only [MAX_RECEIPT_RETRIES] at this ⊢
    omega
  · have := feeGo_delays_exp (oracle h) MAX_RECEIPT_RETRIES 0
    simpa [getTransactionFee] using this
  · simp [retryDelayMs]
  · have hex : ∃ b ∈ chunk5 txHashes, h ∈ b :=
      (chunk5_mem h txHashes.length txHashes (le_refl _)).mpr hmem
    exact feesGo_mem oracle (chunk5 txHashes) [] h hex
  · intro hfail
    have := feeGo_allFail (oracle h) MAX_RECEIPT_RETRIES 0
      (fun i h1 h2 => hfail i (by omega))
    rcases this with ⟨e, he⟩
    simp [bulkFeeFor, getTransactionFee, he]

/-- Witness for C7: hash "a" always misses its receipt, hash "b" succeeds
immediately. -/
theorem evm_fee_retry_and_bulk_totality_witness :
    "a" ∈ ["a", "b"] ∧
      (let oracle := fun (hsh : String) (_ : Nat) =>
        if hsh = "a" then ReceiptOutcome.notFound else ReceiptOutcome.found 42
      (getTransactionFee (oracle "a")).2.length < MAX_RECEIPT_RETRIES ∧
        (getTransactionFee (oracle "a")).2 =
          (List.range (getTransactionFee (oracle "a")).2.length).map
            retryDelayMs ∧
        retryDelayMs 0 = INITIAL_RETRY_DELAY_MS ∧
        alookup (getTransactionFees oracle false ["a", "b"]) "a" =
          some (bulkFeeFor oracle "a") ∧
        ((∀ i, i < MAX_RECEIPT_RETRIES →
            ∀ f, oracle "a" i ≠ ReceiptOutcome.found f) →
          bulkFeeFor oracle "a" = 0)) :=
  ⟨by decide,
    evm_fee_retry_and_bulk_totality
      (fun hsh _ =>
        if hsh = "a" then ReceiptOutcome.notFound else ReceiptOutcome.found 42)
      ["a", "b"] "a" (by decide)⟩

/-! ## C10: the per-period API `total` sums every field, including
`total_supply` -/

theorem aggregateMetricsApi_cons (total netw : ApiValues) (g : String)
    (rest : List String) :
    aggregateMetricsApi total netw (g :: rest) =
      aggregateMetricsApi
        (aset total g
          (some (fieldOrZero (alookup total g) + fieldOrZero (alookup netw g))))
        netw rest := rfl

theorem lookup_aggregateMetricsApi_notMem (netw : ApiValues) (f : String) :
    ∀ (fields : List String) (total : ApiValues), f ∉ fields →
      alookup (aggregateMetricsApi total netw fields) f = alookup total f
  | [], total, _ => rfl
  | g :: rest, total, hnot => by
    have hfg : f ≠ g := fun h => hnot (h ▸ List.mem_cons_self _ _)
    have ih := lookup_aggregateMetricsApi_notMem netw f rest
      (aset total g
        (some (fieldOrZero (alookup total g) + fieldOrZero (alookup netw g))))
      (fun h => hnot (List.mem_cons_of_mem _ h))
    rw [aggregateMetricsApi_cons, ih, alookup_aset_other _ _ _ _ hfg]

theorem lookup_aggregateMetricsApi (netw : ApiValues) (f : String) :
    ∀ (fields : List String) (total : ApiValues), f ∈ fields → fields.Nodup →
      alookup (aggregateMetricsApi total netw fields) f =
        some (some (fieldOrZero (alookup total f) +
          fieldOrZero (alookup netw f)))
  | [], _, hf, _ => by simp at hf
  | g :: rest, total, hf, hnd => by
    have hnd' := List.nodup_cons.mp hnd
    by_cases hfg : f = g
    · subst hfg
      have hnot : f ∉ rest := hnd'.1
      rw [aggregateMetricsApi_cons,
        lookup_aggregateMetricsApi_notMem netw f rest _ hnot,
        alookup_aset_self]
    · have hfr : f ∈ rest := by
        rcases List.mem_cons.mp hf with rfl | hh
        · exact absurd rfl hfg
        · exact hh
      have ih := lookup_aggregateMetricsApi netw f rest
        (aset total g
          (some (fieldOrZero (alookup total g) + fieldOrZero (alookup netw g))))
        hfr hnd'.2
      rw [aggregateMetricsApi_cons, ih, alookup_aset_other _ _ _ _ hfg]

theorem lookup_createEmptyMetrics (f : String) :
    ∀ fields : List String, f ∈ fields →
      alookup (createEmptyMetrics fields) f = some (some 0)
  | [], hf => by simp at hf
  | g :: rest, hf => by
    by_cases hfg : g = f
    · simp [createEmptyMetrics, alookup, hfg]
    · have hfr : f ∈ rest := by
        rcases List.mem_cons.mp hf with rfl | hh
        · exact absurd rfl hfg
        · exact hh
      have ih := lookup_createEmptyMetrics f rest hfr
      simp only [createEmptyMetrics, List.map_cons, alookup, hfg, if_false]
      exact ih

theorem buildPeriodTotal_foldl_lookup (fields : List String) (f : String)
    (hf : f ∈ fields) (hnd : fields.Nodup) :
    ∀ (rows : List ApiRow) (tot : ApiValues) (acc : Int),
      alookup tot f = some (some acc) →
      alookup
          (rows.foldl
            (fun t r =>
              aggregateMetricsApi t (filterMetricsApi r.values fields) fields)
            tot) f =
        some (some (acc +
          ((rows.map fun r =>
            fieldOrZero (alookup (filterMetricsApi r.values fields) f)).sum)))
  | [], tot, acc, hacc => by simpa using hacc
  | r :: rest, tot, acc, hacc => by
    have hstep := lookup_aggregateMetricsApi
      (filterMetricsApi r.values fields) f fields tot hf hnd
    rw [hacc] at hstep
    have ih := buildPeriodTotal_foldl_lookup fields f hf hnd rest
      (aggregateMetricsApi tot (filterMetricsApi r.values fields) fields)
      (acc + fieldOrZero (alookup (filterMetricsApi r.values fields) f))
      (by simpa [fieldOrZero] using hstep)
    simp only [List.foldl_cons, List.map_cons, List.sum_cons]
    rw [ih]
    ring_nf

theorem aset_eq_append {α β : Type} [DecidableEq α]
    (m : List (α × β)) (k : α) (v : β) (hk : alookup m k = none) :
    aset m k v = m ++ [(k, v)] := by
  induction m with
  | nil => simp [aset]
  | cons kv rest ih =>
    obtain ⟨a, b⟩ := kv
    by_cases h : a = k
    · simp [alookup, h] at hk
    · simp only [alookup, h, if_false] at hk
      simp [aset, h, ih hk]

theorem buildPeriodNetworks_foldl_eq (fields : List String) :
    ∀ (rows : List ApiRow) (m : List (String × ApiValues)),
      (∀ r ∈ rows, alookup m r.networkName = none) →
      (rows.map fun r => r.networkName).Nodup →
      rows.foldl
          (fun acc r => aset acc r.networkName (filterMetricsApi r.values fields))
          m =
        m ++ rows.map fun r => (r.networkName, filterMetricsApi r.values fields)
  | [], m, _, _ => by simp
  | r :: rest, m, hnone, hnd => by
    rw [List.map_cons, List.nodup_cons] at hnd
    obtain ⟨hhead, htail⟩ := hnd
    have hmr : alookup m r.networkName = none :=
      hnone r (List.mem_cons_self _ _)
    have hset := aset_eq_append m r.networkName
      (filterMetricsApi r.values fields) hmr
    have hrest : ∀ q ∈ rest,
        alookup (m ++ [(r.networkName, filterMetricsApi r.values fields)])
          q.networkName = none := by
      intro q hq
      rw [alookup_append_single, hnone q (List.mem_cons_of_mem _ hq)]
      have : r.networkName ≠ q.networkName := by
        intro heq
        exact hhead (heq ▸ List.mem_map_of_mem _ hq)
      simp [this]
    have ih := buildPeriodNetworks_foldl_eq fields rest
      (m ++ [(r.networkName, filterMetricsApi r.values fields)]) hrest htail
    simp only [List.foldl_cons, hset, ih, List.map_cons]
    simp

/-- Claim C10: for each period of the GET /api/metrics/:ticker response, the
`total` object is the field-wise sum over the returned networks — including
`total_supply`, which is added exactly like the flow metrics (the source's
"take max" comment notwithstanding), so `total.total_supply` is the sum of
the per-network `total_supply` values. -/
theorem api_total_supply_summed (rows : List ApiRow) (fields : List String)
    (hf : "total_supply" ∈ fields) (hnd : fields.Nodup)
    (hnames : (rows.map fun r => r.networkName).Nodup) :
    alookup (buildPeriodTotal rows fields) "total_supply" =
      some (some (((buildPeriodNetworks rows fields).map fun p =>
        fieldOrZero (alookup p.2 "total_supply")).sum)) := by
  have hempty := lookup_createEmptyMetrics "total_supply" fields hf
  have htot := buildPeriodTotal_foldl_lookup fields "total_supply" hf hnd rows
    (createEmptyMetrics fields) 0 hempty
  have hnet := buildPeriodNetworks_foldl_eq fields rows [] (by simp [alookup])
    hnames
  simp only [buildPeriodTotal, buildPeriodNetworks] at *
  rw [htot, hnet]
  simp [List.map_map, Function.comp_def]

/-- Witness for C10: two networks with supplies 100 and 50 summing to 150. -/
theorem api_total_supply_summed_witness :
    ("total_supply" ∈ ["total_supply", "minted"] ∧
      (["total_supply", "minted"] : List String).Nodup ∧
      (([⟨"ethereum", [("total_supply", some 100), ("minted", some 7)]⟩,
         ⟨"tron", [("total_supply", some 50), ("minted", some 3)]⟩] :
          List ApiRow).map fun r => r.networkName).Nodup) ∧
      alookup
          (buildPeriodTotal
            [⟨"ethereum", [("total_supply", some 100), ("minted", some 7)]⟩,
             ⟨"tron", [("total_supply", some 50), ("minted", some 3)]⟩]
            ["total_supply", "minted"]) "total_supply" =
        some (some
          (((buildPeriodNetworks
              [⟨"ethereum", [("total_supply", some 100), ("minted", some 7)]⟩,
               ⟨"tron", [("total_supply", some 50), ("minted", some 3)]⟩]
              ["total_supply", "minted"]).map fun p =>
            fieldOrZero (alookup p.2 "total_supply")).sum)) :=
  ⟨⟨by decide, by decide, by decide⟩,
    api_total_supply_summed
      [⟨"ethereum", [("total_supply", some 100), ("minted", some 7)]⟩,
       ⟨"tron", [("total_supply", some 50), ("minted", some 3)]⟩]
      ["total_supply", "minted"] (by decide) (by decide) (by decide)⟩

/-! ## Lemmas about the daily map -/

theorem alookup_updateDaily_eq (m : DailyMap) (ts bn : Nat)
    (f : DailyMetrics → DailyMetrics) :
    alookup (updateDaily m ts bn f) (dayKey ts) =
      some (f (touchDaily
        ((alookup m (dayKey ts)).getD (freshDaily (dayKey ts) bn)) bn)) := by
  unfold updateDaily
  cases h : alookup m (dayKey ts) with
  | some d => simp [h, alookup_aset_self]
  | none =>
    simp only [h]
    rw [alookup_append_single]
    simp [h]

theorem alookup_updateDaily_ne (m : DailyMap) (ts bn : Nat)
    (f : DailyMetrics → DailyMetrics) (d : Nat) (hd : d ≠ dayKey ts) :
    alookup (updateDaily m ts bn f) d = alookup m d := by
  unfold updateDaily
  cases h : alookup m (dayKey ts) with
  | some x =>
    simp only [h]
    exact alookup_aset_other _ _ _ _ hd
  | none =>
    simp only [h]
    rw [alookup_append_single]
    have hne : ¬dayKey ts = d := fun hh => hd hh.symm
    cases h' : alookup m d <;> simp [h', hne]

theorem fieldAt_getD {α : Type} (g : DailyMetrics → α) (z : α) (m : DailyMap)
    (d bn : Nat) (hfresh : g (freshDaily d bn) = z) :
    g ((alookup m d).getD (freshDaily d bn)) = fieldAt g z m d := by
  cases h : alookup m d <;> simp [fieldAt, h, hfresh]

theorem fieldAt_updateDaily_eq {α : Type} (g : DailyMetrics → α) (z : α)
    (m : DailyMap) (ts bn : Nat) (F : DailyMetrics → DailyMetrics) :
    fieldAt g z (updateDaily m ts bn F) (dayKey ts) =
      g (F (touchDaily
        ((alookup m (dayKey ts)).getD (freshDaily (dayKey ts) bn)) bn)) := by
  simp [fieldAt, alookup_updateDaily_eq]

theorem fieldAt_updateDaily_ne {α : Type} (g : DailyMetrics → α) (z : α)
    (m : DailyMap) (ts bn : Nat) (F : DailyMetrics → DailyMetrics) (d : Nat)
    (hd : d ≠ dayKey ts) :
    fieldAt g z (updateDaily m ts bn F) d = fieldAt g z m d := by
  simp [fieldAt, alookup_updateDaily_ne m ts bn F d hd]

theorem fieldAt_updateDaily_add {α : Type} [AddCommMonoid α]
    (g : DailyMetrics → α) (m : DailyMap) (ts bn : Nat)
    (F : DailyMetrics → DailyMetrics) (d : Nat) (inc : α)
    (htouch : ∀ x b, g (touchDaily x b) = g x)
    (hF : ∀ x, g (F x) = g x + inc)
    (hfresh : ∀ b, g (freshDaily (dayKey ts) b) = 0) :
    fieldAt g 0 (updateDaily m ts bn F) d =
      fieldAt g 0 m d + (if dayKey ts = d then inc else 0) := by
  by_cases hd : d = dayKey ts
  · subst hd
    rw [fieldAt_updateDaily_eq, hF, htouch,
      fieldAt_getD g 0 m _ bn (hfresh bn), if_pos rfl]
  · rw [fieldAt_updateDaily_ne g 0 m ts bn F d hd,
      if_neg (fun h => hd h.symm), add_zero]

theorem fieldAt_updateDaily_preserved {α : Type} (g : DailyMetrics → α)
    (z : α) (m : DailyMap) (ts bn : Nat) (F : DailyMetrics → DailyMetrics)
    (d : Nat)
    (htouch : ∀ x b, g (touchDaily x b) = g x)
    (hF : ∀ x, g (F x) = g x)
    (hfresh : ∀ b, g (freshDaily (dayKey ts) b) = z) :
    fieldAt g z (updateDaily m ts bn F) d = fieldAt g z m d := by
  by_cases hd : d = dayKey ts
  · subst hd
    rw [fieldAt_updateDaily_eq, hF, htouch, fieldAt_getD g z m _ bn (hfresh bn)]
  · exact fieldAt_updateDaily_ne g z m ts bn F d hd

theorem fieldAt_updateDaily_sadd (g : DailyMetrics → List String)
    (m : DailyMap) (ts bn : Nat) (F : DailyMetrics → DailyMetrics) (d : Nat)
    (a : String)
    (htouch : ∀ x b, g (touchDaily x b) = g x)
    (hF : ∀ x, g (F x) = sadd (g x) a)
    (hfresh : ∀ b, g (freshDaily (dayKey ts) b) = []) :
    fieldAt g [] (updateDaily m ts bn F) d =
      if dayKey ts = d then sadd (fieldAt g [] m d) a else fieldAt g [] m d := by
  by_cases hd : d = dayKey ts
  · subst hd
    rw [fieldAt_updateDaily_eq, hF, htouch,
      fieldAt_getD g [] m _ bn (hfresh bn), if_pos rfl]
  · rw [fieldAt_updateDaily_ne g [] m ts bn F d hd,
      if_neg (fun h => hd h.symm)]

theorem fieldAt_foldl_preserved {α β : Type} (g : DailyMetrics → α) (z : α)
    (d : Nat) (step : DailyMap → β → DailyMap)
    (hstep : ∀ m e, fieldAt g z (step m e) d = fieldAt g z m d) :
    ∀ (l : List β) (m : DailyMap),
      fieldAt g z (l.foldl step m) d = fieldAt g z m d
  | [], _ => rfl
  | e :: t, m => by
    rw [List.foldl_cons, fieldAt_foldl_preserved g z d step hstep t, hstep]

theorem fieldAt_foldl_add {α β : Type} [AddCommMonoid α]
    (g : DailyMetrics → α) (d : Nat) (step : DailyMap → β → DailyMap)
    (c : β → α)
    (hstep : ∀ m e, fieldAt g 0 (step m e) d = fieldAt g 0 m d + c e) :
    ∀ (l : List β) (m : DailyMap),
      fieldAt g 0 (l.foldl step m) d = fieldAt g 0 m d + (l.map c).sum
  | [], m => by simp
  | e :: t, m => by
    rw [List.foldl_cons, fieldAt_foldl_add g d step c hstep t, hstep]
    simp [add_assoc]

theorem fieldAt_foldl_sadd {β : Type} (g : DailyMetrics → List String)
    (d : Nat) (step : DailyMap → β → DailyMap) (p : β → Prop)
    [DecidablePred p] (a : β → String)
    (hstep : ∀ m e, fieldAt g [] (step m e) d =
      if p e then sadd (fieldAt g [] m d) (a e) else fieldAt g [] m d) :
    ∀ (l : List β) (m : DailyMap),
      fieldAt g [] (l.foldl step m) d =
        (l.filter fun e => p e).foldl (fun s e => sadd s (a e))
          (fieldAt g [] m d)
  | [], _ => rfl
  | e :: t, m => by
    rw [List.foldl_cons, fieldAt_foldl_sadd g d step p a hstep t]
    by_cases hp : p e <;> simp [hp, hstep]

theorem sum_map_ite_one {β : Type} (p : β → Prop) [DecidablePred p] :
    ∀ l : List β,
      (l.map fun e => if p e then (1 : Nat) else 0).sum =
        (l.filter fun e => p e).length
  | [] => rfl
  | e :: t => by
    have ih := sum_map_ite_one p t
    by_cases hp : p e <;> simp [hp, ih, Nat.add_comm]

theorem sum_map_ite_val {β : Type} (p : β → Prop) [DecidablePred p]
    (v : β → Int) :
    ∀ l : List β,
      (l.map fun e => if p e then v e else 0).sum =
        ((l.filter fun e => p e).map v).sum
  | [] => rfl
  | e :: t => by
    have ih := sum_map_ite_val p v t
    by_cases hp : p e <;> simp [hp, ih]

/-! Per-step effects of the four `processEvents` loops. -/

theorem txCountAt_stepTransfer (m : DailyMap) (t : TransferEvent) (d : Nat) :
    txCountAt (stepTransfer m t) d =
      txCountAt m d + (if dayKey t.timestamp = d then 1 else 0) :=
  fieldAt_updateDaily_add (fun x => x.txCount) m t.timestamp t.blockNumber _ d 1
    (fun _ _ => rfl) (fun _ => rfl) (fun _ => rfl)

theorem transferredAt_stepTransfer (m : DailyMap) (t : TransferEvent)
    (d : Nat) :
    totalTransferredAt (stepTransfer m t) d =
      totalTransferredAt m d + (if dayKey t.timestamp = d then t.value else 0) :=
  fieldAt_updateDaily_add (fun x => x.totalTransferred) m t.timestamp
    t.blockNumber _ d t.value (fun _ _ => rfl) (fun _ => rfl) (fun _ => rfl)

theorem sendersAt_stepTransfer (m : DailyMap) (t : TransferEvent) (d : Nat) :
    sendersAt (stepTransfer m t) d =
      if dayKey t.timestamp = d then sadd (sendersAt m d) t.fromAddr
      else sendersAt m d :=
  fieldAt_updateDaily_sadd (fun x => x.senders) m t.timestamp t.blockNumber _ d
    t.fromAddr (fun _ _ => rfl) (fun _ => rfl) (fun _ => rfl)

theorem receiversAt_stepTransfer (m : DailyMap) (t : TransferEvent) (d : Nat) :
    receiversAt (stepTransfer m t) d =
      if dayKey t.timestamp = d then sadd (receiversAt m d) t.toAddr
      else receiversAt m d :=
  fieldAt_updateDaily_sadd (fun x => x.receivers) m t.timestamp t.blockNumber _
    d t.toAddr (fun _ _ => rfl) (fun _ => rfl) (fun _ => rfl)

theorem mintedAt_stepMint (m : DailyMap) (e : MintEvent) (d : Nat) :
    mintedAt (stepMint m e) d =
      mintedAt m d + (if dayKey e.timestamp = d then e.value else 0) :=
  fieldAt_updateDaily_add (fun x => x.minted) m e.timestamp e.blockNumber _ d
    e.value (fun _ _ => rfl) (fun _ => rfl) (fun _ => rfl)

theorem burnedAt_stepBurn (m : DailyMap) (e : BurnEvent) (d : Nat) :
    burnedAt (stepBurn m e) d =
      burnedAt m d + (if dayKey e.timestamp = d then e.value else 0) :=
  fieldAt_updateDaily_add (fun x => x.burned) m e.timestamp e.blockNumber _ d
    e.value (fun _ _ => rfl) (fun _ => rfl) (fun _ => rfl)

theorem feesAt_stepFee (fees : FeeMap) (m : DailyMap) (t : TransferEvent)
    (d : Nat) :
    feesAt (stepFee fees m t) d =
      feesAt m d +
        (if dayKey t.timestamp = d then (alookup fees t.txHash).getD 0
         else 0) := by
  unfold stepFee
  cases h : alookup fees t.txHash with
  | none => simp
  | some fee =>
    have := fieldAt_updateDaily_add (fun x => x.totalFeesNative) m t.timestamp
      t.blockNumber
      (fun x => { x with totalFeesNative := x.totalFeesNative + fee }) d fee
      (fun _ _ => rfl) (fun _ => rfl) (fun _ => rfl)
    simpa [feesAt, h] using this

/-! Per-step preservation of the unrelated accumulators. -/

theorem txCountAt_stepMint (m : DailyMap) (e : MintEvent) (d : Nat) :
    txCountAt (stepMint m e) d = txCountAt m d :=
  fieldAt_updateDaily_preserved (fun x => x.txCount) 0 m e.timestamp
    e.blockNumber _ d (fun _ _ => rfl) (fun _ => rfl) (fun _ => rfl)

theorem txCountAt_stepBurn (m : DailyMap) (e : BurnEvent) (d : Nat) :
    txCountAt (stepBurn m e) d = txCountAt m d :=
  fieldAt_updateDaily_preserved (fun x => x.txCount) 0 m e.timestamp
    e.blockNumber _ d (fun _ _ => rfl) (fun _ => rfl) (fun _ => rfl)

theorem txCountAt_stepFee (fees : FeeMap) (m : DailyMap) (t : TransferEvent)
    (d : Nat) : txCountAt (stepFee fees m t) d = txCountAt m d := by
  unfold stepFee
  cases h : alookup fees t.txHash with
  | none => rfl
  | some fee =>
    exact fieldAt_updateDaily_preserved (fun x => x.txCount) 0 m t.timestamp
      t.blockNumber _ d (fun _ _ => rfl) (fun _ => rfl) (fun _ => rfl)

theorem transferredAt_stepMint (m : DailyMap) (e : MintEvent) (d : Nat) :
    totalTransferredAt (stepMint m e) d = totalTransferredAt m d :=
  fieldAt_updateDaily_preserved (fun x => x.totalTransferred) 0 m e.timestamp
    e.blockNumber _ d (fun _ _ => rfl) (fun _ => rfl) (fun _ => rfl)

theorem transferredAt_stepBurn (m : DailyMap) (e : BurnEvent) (d : Nat) :
    totalTransferredAt (stepBurn m e) d = totalTransferredAt m d :=
  fieldAt_updateDaily_preserved (fun x => x.totalTransferred) 0 m e.timestamp
    e.blockNumber _ d (fun _ _ => rfl) (fun _ => rfl) (fun _ => rfl)

theorem transferredAt_stepFee (fees : FeeMap) (m : DailyMap)
    (t : TransferEvent) (d : Nat) :
    totalTransferredAt (stepFee fees m t) d = totalTransferredAt m d := by
  unfold stepFee
  cases h : alookup fees t.txHash with
  | none => rfl
  | some fee =>
    exact fieldAt_updateDaily_preserved (fun x => x.totalTransferred) 0 m
      t.timestamp t.blockNumber _ d (fun _ _ => rfl) (fun _ => rfl)
      (fun _ => rfl)

theorem sendersAt_stepMint (m : DailyMap) (e : MintEvent) (d : Nat) :
    sendersAt (stepMint m e) d = sendersAt m d :=
  fieldAt_updateDaily_preserved (fun x => x.senders) [] m e.timestamp
    e.blockNumber _ d (fun _ _ => rfl) (fun _ => rfl) (fun _ => rfl)

theorem sendersAt_stepBurn (m : DailyMap) (e : BurnEvent) (d : Nat) :
    sendersAt (stepBurn m e) d = sendersAt m d :=
  fieldAt_updateDaily_preserved (fun x => x.senders) [] m e.timestamp
    e.blockNumber _ d (fun _ _ => rfl) (fun _ => rfl) (fun _ => rfl)

theorem sendersAt_stepFee (fees : FeeMap) (m : DailyMap) (t : TransferEvent)
    (d : Nat) : sendersAt (stepFee fees m t) d = sendersAt m d := by
  unfold stepFee
  cases h : alookup fees t.txHash with
  | none => rfl
  | some fee =>
    exact fieldAt_updateDaily_preserved (fun x => x.senders) [] m t.timestamp
      t.blockNumber _ d (fun _ _ => rfl) (fun _ => rfl) (fun _ => rfl)

theorem receiversAt_stepMint (m : DailyMap) (e : MintEvent) (d : Nat) :
    receiversAt (stepMint m e) d = receiversAt m d :=
  fieldAt_updateDaily_preserved (fun x => x.receivers) [] m e.timestamp
    e.blockNumber _ d (fun _ _ => rfl) (fun _ => rfl) (fun _ => rfl)

theorem receiversAt_stepBurn (m : DailyMap) (e : BurnEvent) (d : Nat) :
    receiversAt (stepBurn m e) d = receiversAt m d :=
  fieldAt_updateDaily_preserved (fun x => x.receivers) [] m e.timestamp
    e.blockNumber _ d (fun _ _ => rfl) (fun _ => rfl) (fun _ => rfl)

theorem receiversAt_stepFee (fees : FeeMap) (m : DailyMap) (t : TransferEvent)
    (d : Nat) : receiversAt (stepFee fees m t) d = receiversAt m d := by
  unfold stepFee
  cases h : alookup fees t.txHash with
  | none => rfl
  | some fee =>
    exact fieldAt_updateDaily_preserved (fun x => x.receivers) [] m t.timestamp
      t.blockNumber _ d (fun _ _ => rfl) (fun _ => rfl) (fun _ => rfl)

theorem mintedAt_stepTransfer (m : DailyMap) (t : TransferEvent) (d : Nat) :
    mintedAt (stepTransfer m t) d = mintedAt m d :=
  fieldAt_updateDaily_preserved (fun x => x.minted) 0 m t.timestamp
    t.blockNumber _ d (fun _ _ => rfl) (fun _ => rfl) (fun _ => rfl)

theorem mintedAt_stepBurn (m : DailyMap) (e : BurnEvent) (d : Nat) :
    mintedAt (stepBurn m e) d = mintedAt m d :=
  fieldAt_updateDaily_preserved (fun x => x.minted) 0 m e.timestamp
    e.blockNumber _ d (fun _ _ => rfl) (fun _ => rfl) (fun _ => rfl)

theorem mintedAt_stepFee (fees : FeeMap) (m : DailyMap) (t : TransferEvent)
    (d : Nat) : mintedAt (stepFee fees m t) d = mintedAt m d := by
  unfold stepFee
  cases h : alookup fees t.txHash with
  | none => rfl
  | some fee =>
    exact fieldAt_updateDaily_preserved (fun x => x.minted) 0 m t.timestamp
      t.blockNumber _ d (fun _ _ => rfl) (fun _ => rfl) (fun _ => rfl)

theorem burnedAt_stepTransfer (m : DailyMap) (t : TransferEvent) (d : Nat) :
    burnedAt (stepTransfer m t) d = burnedAt m d :=
  fieldAt_updateDaily_preserved (fun x => x.burned) 0 m t.timestamp
    t.blockNumber _ d (fun _ _ => rfl) (fun _ => rfl) (fun _ => rfl)

theorem burnedAt_stepMint (m : DailyMap) (e : MintEvent) (d : Nat) :
    burnedAt (stepMint m e) d = burnedAt m d :=
  fieldAt_updateDaily_preserved (fun x => x.burned) 0 m e.timestamp
    e.blockNumber _ d (fun _ _ => rfl) (fun _ => rfl) (fun _ => rfl)

theorem burnedAt_stepFee (fees : FeeMap) (m : DailyMap) (t : TransferEvent)
    (d : Nat) : burnedAt (stepFee fees m t) d = burnedAt m d := by
  unfold stepFee
  cases h : alookup fees t.txHash with
  | none => rfl
  | some fee =>
    exact fieldAt_updateDaily_preserved (fun x => x.burned) 0 m t.timestamp
      t.blockNumber _ d (fun _ _ => rfl) (fun _ => rfl) (fun _ => rfl)

theorem feesAt_stepTransfer (m : DailyMap) (t : TransferEvent) (d : Nat) :
    feesAt (stepTransfer m t) d = feesAt m d :=
  fieldAt_updateDaily_preserved (fun x => x.totalFeesNative) 0 m t.timestamp
    t.blockNumber _ d (fun _ _ => rfl) (fun _ => rfl) (fun _ => rfl)

theorem feesAt_stepMint (m : DailyMap) (e : MintEvent) (d : Nat) :
    feesAt (stepMint m e) d = feesAt m d :=
  fieldAt_updateDaily_preserved (fun x => x.totalFeesNative) 0 m e.timestamp
    e.blockNumber _ d (fun _ _ => rfl) (fun _ => rfl) (fun _ => rfl)

theorem feesAt_stepBurn (m : DailyMap) (e : BurnEvent) (d : Nat) :
    feesAt (stepBurn m e) d = feesAt m d :=
  fieldAt_updateDaily_preserved (fun x => x.totalFeesNative) 0 m e.timestamp
    e.blockNumber _ d (fun _ _ => rfl) (fun _ => rfl) (fun _ => rfl)

theorem processEventsDaily_eq (T : List TransferEvent) (M : List MintEvent)
    (B : List BurnEvent) (fees : FeeMap) (he : ¬(T = [] ∧ M = [] ∧ B = [])) :
    processEventsDaily T M B fees =
      if T.foldl (fun s t => sadd s t.txHash) [] = [] then
        B.foldl stepBurn (M.foldl stepMint (T.foldl stepTransfer []))
      else
        T.foldl (stepFee fees)
          (B.foldl stepBurn (M.foldl stepMint (T.foldl stepTransfer []))) := by
  unfold processEventsDaily
  rw [if_neg he]

theorem sadd_ne_nil (s : List String) (x : String) : sadd s x ≠ [] := by
  unfold sadd
  by_cases h : x ∈ s
  · simp only [h, if_true]
    exact List.ne_nil_of_mem h
  · simp [h]

theorem txHashes_foldl_eq_nil :
    ∀ (l : List TransferEvent) (s : List String),
      l.foldl (fun s t => sadd s t.txHash) s = [] → l = [] ∧ s = []
  | [], s, h => ⟨rfl, h⟩
  | t :: ts, s, h => by
    have := (txHashes_foldl_eq_nil ts (sadd s t.txHash) h).2
    exact absurd this (sadd_ne_nil s t.txHash)

theorem processEventsDaily_txCountAt (T : List TransferEvent)
    (M : List MintEvent) (B : List BurnEvent) (fees : FeeMap) (d : Nat) :
    txCountAt (processEventsDaily T M B fees) d =
      (T.filter fun t => dayKey t.timestamp = d).length := by
  by_cases he : T = [] ∧ M = [] ∧ B = []
  · obtain ⟨h1, h2, h3⟩ := he
    subst h1
    subst h2
    subst h3
    simp [processEventsDaily, txCountAt, fieldAt, alookup]
  · rw [processEventsDaily_eq T M B fees he]
    have hm1 := fieldAt_foldl_add (fun x => x.txCount) d stepTransfer
      (fun t => if dayKey t.timestamp = d then (1 : Nat) else 0)
      (fun m t => txCountAt_stepTransfer m t d) T []
    have hm2 := fieldAt_foldl_preserved (fun x => x.txCount) 0 d stepMint
      (fun m e => txCountAt_stepMint m e d) M (T.foldl stepTransfer [])
    have hm3 := fieldAt_foldl_preserved (fun x => x.txCount) 0 d stepBurn
      (fun m e => txCountAt_stepBurn m e d) B
      (M.foldl stepMint (T.foldl stepTransfer []))
    have hsum := sum_map_ite_one (fun t => dayKey t.timestamp = d) T
    by_cases hh : T.foldl (fun s t => sadd s t.txHash) [] = []
    · rw [if_pos hh]
      show fieldAt (fun x => x.txCount) 0 _ d = _
      rw [hm3, hm2, hm1, hsum]
      simp [fieldAt, alookup]
    · rw [if_neg hh]
      have hfee := fieldAt_foldl_preserved (fun x => x.txCount) 0 d
        (stepFee fees) (fun m t => txCountAt_stepFee fees m t d) T
        (B.foldl stepBurn (M.foldl stepMint (T.foldl stepTransfer [])))
      show fieldAt (fun x => x.txCount) 0 _ d = _
      rw [hfee, hm3, hm2, hm1, hsum]
      simp [fieldAt, alookup]

theorem processEventsDaily_transferredAt (T : List TransferEvent)
    (M : List MintEvent) (B : List BurnEvent) (fees : FeeMap) (d : Nat) :
    totalTransferredAt (processEventsDaily T M B fees) d =
      ((T.filter fun t => dayKey t.timestamp = d).map fun t => t.value).sum := by
  by_cases he : T = [] ∧ M = [] ∧ B = []
  · obtain ⟨h1, h2, h3⟩ := he
    subst h1
    subst h2
    subst h3
    simp [processEventsDaily, totalTransferredAt, fieldAt, alookup]
  · rw [processEventsDaily_eq T M B fees he]
    have hm1 := fieldAt_foldl_add (fun x => x.totalTransferred) d stepTransfer
      (fun t => if dayKey t.timestamp = d then t.value else 0)
      (fun m t => transferredAt_stepTransfer m t d) T []
    have hm2 := fieldAt_foldl_preserved (fun x => x.totalTransferred) 0 d
      stepMint (fun m e => transferredAt_stepMint m e d) M
      (T.foldl stepTransfer [])
    have hm3 := fieldAt_foldl_preserved (fun x => x.totalTransferred) 0 d
      stepBurn (fun m e => transferredAt_stepBurn m e d) B
      (M.foldl stepMint (T.foldl stepTransfer []))
    have hsum := sum_map_ite_val (fun t => dayKey t.timestamp = d)
      (fun t => t.value) T
    by_cases hh : T.foldl (fun s t => sadd s t.txHash) [] = []
    · rw [if_pos hh]
      show fieldAt (fun x => x.totalTransferred) 0 _ d = _
      rw [hm3, hm2, hm1, hsum]
      simp [fieldAt, alookup]
    · rw [if_neg hh]
      have hfee := fieldAt_foldl_preserved (fun x => x.totalTransferred) 0 d
        (stepFee fees) (fun m t => transferredAt_stepFee fees m t d) T
        (B.foldl stepBurn (M.foldl stepMint (T.foldl stepTransfer [])))
      show fieldAt (fun x => x.totalTransferred) 0 _ d = _
      rw [hfee, hm3, hm2, hm1, hsum]
      simp [fieldAt, alookup]

theorem processEventsDaily_sendersAt (T : List TransferEvent)
    (M : List MintEvent) (B : List BurnEvent) (fees : FeeMap) (d : Nat) :
    sendersAt (processEventsDaily T M B fees) d =
      (T.filter fun t => dayKey t.timestamp = d).foldl
        (fun s t => sadd s t.fromAddr) [] := by
  by_cases he : T = [] ∧ M = [] ∧ B = []
  · obtain ⟨h1, h2, h3⟩ := he
    subst h1
    subst h2
    subst h3
    simp [processEventsDaily, sendersAt, fieldAt, alookup]
  · rw [processEventsDaily_eq T M B fees he]
    have hm1 := fieldAt_foldl_sadd (fun x => x.senders) d stepTransfer
      (fun t => dayKey t.timestamp = d) (fun t => t.fromAddr)
      (fun m t => sendersAt_stepTransfer m t d) T []
    have hm2 := fieldAt_foldl_preserved (fun x => x.senders) [] d stepMint
      (fun m e => sendersAt_stepMint m e d) M (T.foldl stepTransfer [])
    have hm3 := fieldAt_foldl_preserved (fun x => x.senders) [] d stepBurn
      (fun m e => sendersAt_stepBurn m e d) B
      (M.foldl stepMint (T.foldl stepTransfer []))
    by_cases hh : T.foldl (fun s t => sadd s t.txHash) [] = []
    · rw [if_pos hh]
      show fieldAt (fun x => x.senders) [] _ d = _
      rw [hm3, hm2, hm1]
      rfl
    · rw [if_neg hh]
      have hfee := fieldAt_foldl_preserved (fun x => x.senders) [] d
        (stepFee fees) (fun m t => sendersAt_stepFee fees m t d) T
        (B.foldl stepBurn (M.foldl stepMint (T.foldl stepTransfer [])))
      show fieldAt (fun x => x.senders) [] _ d = _
      rw [hfee, hm3, hm2, hm1]
      rfl

theorem processEventsDaily_receiversAt (T : List TransferEvent)
    (M : List MintEvent) (B : List BurnEvent) (fees : FeeMap) (d : Nat) :
    receiversAt (processEventsDaily T M B fees) d =
      (T.filter fun t => dayKey t.timestamp = d).foldl
        (fun s t => sadd s t.toAddr) [] := by
  by_cases he : T = [] ∧ M = [] ∧ B = []
  · obtain ⟨h1, h2, h3⟩ := he
    subst h1
    subst h2
    subst h3
    simp [processEventsDaily, receiversAt, fieldAt, alookup]
  · rw [processEventsDaily_eq T M B fees he]
    have hm1 := fieldAt_foldl_sadd (fun x => x.receivers) d stepTransfer
      (fun t => dayKey t.timestamp = d) (fun t => t.toAddr)
      (fun m t => receiversAt_stepTransfer m t d) T []
    have hm2 := fieldAt_foldl_preserved (fun x => x.receivers) [] d stepMint
      (fun m e => receiversAt_stepMint m e d) M (T.foldl stepTransfer [])
    have hm3 := fieldAt_foldl_preserved (fun x => x.receivers) [] d stepBurn
      (fun m e => receiversAt_stepBurn m e d) B
      (M.foldl stepMint (T.foldl stepTransfer []))
    by_cases hh : T.foldl (fun s t => sadd s t.txHash) [] = []
    · rw [if_pos hh]
      show fieldAt (fun x => x.receivers) [] _ d = _
      rw [hm3, hm2, hm1]
      rfl
    · rw [if_neg hh]
      have hfee := fieldAt_foldl_preserved (fun x => x.receivers) [] d
        (stepFee fees) (fun m t => receiversAt_stepFee fees m t d) T
        (B.foldl stepBurn (M.foldl stepMint (T.foldl stepTransfer [])))
      show fieldAt (fun x => x.receivers) [] _ d = _
      rw [hfee, hm3, hm2, hm1]
      rfl

theorem processEventsDaily_mintedAt (T : List TransferEvent)
    (M : List MintEvent) (B : List BurnEvent) (fees : FeeMap) (d : Nat) :
    mintedAt (processEventsDaily T M B fees) d =
      ((M.filter fun e => dayKey e.timestamp = d).map fun e => e.value).sum := by
  by_cases he : T = [] ∧ M = [] ∧ B = []
  · obtain ⟨h1, h2, h3⟩ := he
    subst h1
    subst h2
    subst h3
    simp [processEventsDaily, mintedAt, fieldAt, alookup]
  · rw [processEventsDaily_eq T M B fees he]
    have hm1 := fieldAt_foldl_preserved (fun x => x.minted) 0 d stepTransfer
      (fun m t => mintedAt_stepTransfer m t d) T []
    have hm2 := fieldAt_foldl_add (fun x => x.minted) d stepMint
      (fun e => if dayKey e.timestamp = d then e.value else 0)
      (fun m e => mintedAt_stepMint m e d) M (T.foldl stepTransfer [])
    have hm3 := fieldAt_foldl_preserved (fun x => x.minted) 0 d stepBurn
      (fun m e => mintedAt_stepBurn m e d) B
      (M.foldl stepMint (T.foldl stepTransfer []))
    have hsum := sum_map_ite_val (fun e : MintEvent => dayKey e.timestamp = d)
      (fun e => e.value) M
    by_cases hh : T.foldl (fun s t => sadd s t.txHash) [] = []
    · rw [if_pos hh]
      show fieldAt (fun x => x.minted) 0 _ d = _
      rw [hm3, hm2, hm1, hsum]
      simp [fieldAt, alookup]
    · rw [if_neg hh]
      have hfee := fieldAt_foldl_preserved (fun x => x.minted) 0 d
        (stepFee fees) (fun m t => mintedAt_stepFee fees m t d) T
        (B.foldl stepBurn (M.foldl stepMint (T.foldl stepTransfer [])))
      show fieldAt (fun x => x.minted) 0 _ d = _
      rw [hfee, hm3, hm2, hm1, hsum]
      simp [fieldAt, alookup]

theorem processEventsDaily_burnedAt (T : List TransferEvent)
    (M : List MintEvent) (B : List BurnEvent) (fees : FeeMap) (d : Nat) :
    burnedAt (processEventsDaily T M B fees) d =
      ((B.filter fun e => dayKey e.timestamp = d).map fun e => e.value).sum := by
  by_cases he : T = [] ∧ M = [] ∧ B = []
  · obtain ⟨h1, h2, h3⟩ := he
    subst h1
    subst h2
    subst h3
    simp [processEventsDaily, burnedAt, fieldAt, alookup]
  · rw [processEventsDaily_eq T M B fees he]
    have hm1 := fieldAt_foldl_preserved (fun x => x.burned) 0 d stepTransfer
      (fun m t => burnedAt_stepTransfer m t d) T []
    have hm2 := fieldAt_foldl_preserved (fun x => x.burned) 0 d stepMint
      (fun m e => burnedAt_stepMint m e d) M (T.foldl stepTransfer [])
    have hm3 := fieldAt_foldl_add (fun x => x.burned) d stepBurn
      (fun e => if dayKey e.timestamp = d then e.value else 0)
      (fun m e => burnedAt_stepBurn m e d) B
      (M.foldl stepMint (T.foldl stepTransfer []))
    have hsum := sum_map_ite_val (fun e : BurnEvent => dayKey e.timestamp = d)
      (fun e => e.value) B
    by_cases hh : T.foldl (fun s t => sadd s t.txHash) [] = []
    · rw [if_pos hh]
      show fieldAt (fun x => x.burned) 0 _ d = _
      rw [hm3, hm2, hm1, hsum]
      simp [fieldAt, alookup]
    · rw [if_neg hh]
      have hfee := fieldAt_foldl_preserved (fun x => x.burned) 0 d
        (stepFee fees) (fun m t => burnedAt_stepFee fees m t d) T
        (B.foldl stepBurn (M.foldl stepMint (T.foldl stepTransfer [])))
      show fieldAt (fun x => x.burned) 0 _ d = _
      rw [hfee, hm3, hm2, hm1, hsum]
      simp [fieldAt, alookup]

theorem processEventsDaily_feesAt (T : List TransferEvent)
    (M : List MintEvent) (B : List BurnEvent) (fees : FeeMap) (d : Nat) :
    feesAt (processEventsDaily T M B fees) d =
      ((T.filter fun t => dayKey t.timestamp = d).map
        fun t => (alookup fees t.txHash).getD 0).sum := by
  by_cases he : T = [] ∧ M = [] ∧ B = []
  · obtain ⟨h1, h2, h3⟩ := he
    subst h1
    subst h2
    subst h3
    simp [processEventsDaily, feesAt, fieldAt, alookup]
  · rw [processEventsDaily_eq T M B fees he]
    have hm1 := fieldAt_foldl_preserved (fun x => x.totalFeesNative) 0 d
      stepTransfer (fun m t => feesAt_stepTransfer m t d) T []
    have hm2 := fieldAt_foldl_preserved (fun x => x.totalFeesNative) 0 d
      stepMint (fun m e => feesAt_stepMint m e d) M (T.foldl stepTransfer [])
    have hm3 := fieldAt_foldl_preserved (fun x => x.totalFeesNative) 0 d
      stepBurn (fun m e => feesAt_stepBurn m e d) B
      (M.foldl stepMint (T.foldl stepTransfer []))
    have hsum := sum_map_ite_val (fun t : TransferEvent => dayKey t.timestamp = d)
      (fun t => (alookup fees t.txHash).getD 0) T
    by_cases hh : T.foldl (fun s t => sadd s t.txHash) [] = []
    · have hT : T = [] := (txHashes_foldl_eq_nil T [] hh).1
      subst hT
      rw [if_pos hh]
      show fieldAt (fun x => x.totalFeesNative) 0 _ d = _
      rw [hm3, hm2]
      simp [fieldAt, alookup]
    · rw [if_neg hh]
      have hfee := fieldAt_foldl_add (fun x => x.totalFeesNative) d
        (stepFee fees)
        (fun t => if dayKey t.timestamp = d then (alookup fees t.txHash).getD 0
          else 0)
        (fun m t => feesAt_stepFee fees m t d) T
        (B.foldl stepBurn (M.foldl stepMint (T.foldl stepTransfer [])))
      show fieldAt (fun x => x.totalFeesNative) 0 _ d = _
      rw [hfee, hm3, hm2, hm1, hsum]
      simp [fieldAt, alookup]

/-- Claim C3: the daily accumulators `tx_count`, `unique_senders`,
`unique_receivers` and `total_transferred` are computed only over the pure
transfers (both endpoints non-zero, as filtered by `syncContract`); a transfer
from the zero address appears only as a mint and contributes only to
`minted`, a transfer to the zero address only as a burn contributing only to
`burned`. -/
theorem daily_accumulators_pure_transfers (allTransfers : List TransferEvent)
    (fees : FeeMap) (d : Nat) :
    txCountAt
        (processEventsDaily (pureTransfers allTransfers)
          (mintEvents allTransfers) (burnEvents allTransfers) fees) d =
      ((pureTransfers allTransfers).filter
        fun t => dayKey t.timestamp = d).length ∧
      totalTransferredAt
          (processEventsDaily (pureTransfers allTransfers)
            (mintEvents allTransfers) (burnEvents allTransfers) fees) d =
        (((pureTransfers allTransfers).filter
          fun t => dayKey t.timestamp = d).map fun t => t.value).sum ∧
      sendersAt
          (processEventsDaily (pureTransfers allTransfers)
            (mintEvents allTransfers) (burnEvents allTransfers) fees) d =
        ((pureTransfers allTransfers).filter
          fun t => dayKey t.timestamp = d).foldl
          (fun s t => sadd s t.fromAddr) [] ∧
      receiversAt
          (processEventsDaily (pureTransfers allTransfers)
            (mintEvents allTransfers) (burnEvents allTransfers) fees) d =
        ((pureTransfers allTransfers).filter
          fun t => dayKey t.timestamp = d).foldl
          (fun s t => sadd s t.toAddr) [] ∧
      mintedAt
          (processEventsDaily (pureTransfers allTransfers)
            (mintEvents allTransfers) (burnEvents allTransfers) fees) d =
        (((mintEvents allTransfers).filter
          fun e => dayKey e.timestamp = d).map fun e => e.value).sum ∧
      burnedAt
          (processEventsDaily (pureTransfers allTransfers)
            (mintEvents allTransfers) (burnEvents allTransfers) fees) d =
        (((burnEvents allTransfers).filter
          fun e => dayKey e.timestamp = d).map fun e => e.value).sum :=
  ⟨processEventsDaily_txCountAt _ _ _ _ _,
    processEventsDaily_transferredAt _ _ _ _ _,
    processEventsDaily_sendersAt _ _ _ _ _,
    processEventsDaily_receiversAt _ _ _ _ _,
    processEventsDaily_mintedAt _ _ _ _ _,
    processEventsDaily_burnedAt _ _ _ _ _⟩

/-- Counterexample to claim C2 as stated: with two pure transfers sharing one
tx hash on the same day plus a mint in its own tx, the code's daily
`total_fees_native` (fee added once per transfer event, nothing for the mint)
differs from the spec's "sum over the distinct tx hashes of that day's
events". -/
theorem daily_fees_distinct_hash_counterexample :
    feesAt
        (processEventsDaily
          (pureTransfers
            [⟨100, "h1", "0xA", "0xB", 5, 86400⟩,
             ⟨100, "h1", "0xB", "0xC", 3, 86450⟩,
             ⟨101, "h2", ZERO_ADDRESS, "0xD", 4, 86500⟩])
          (mintEvents
            [⟨100, "h1", "0xA", "0xB", 5, 86400⟩,
             ⟨100, "h1", "0xB", "0xC", 3, 86450⟩,
             ⟨101, "h2", ZERO_ADDRESS, "0xD", 4, 86500⟩])
          (burnEvents
            [⟨100, "h1", "0xA", "0xB", 5, 86400⟩,
             ⟨100, "h1", "0xB", "0xC", 3, 86450⟩,
             ⟨101, "h2", ZERO_ADDRESS, "0xD", 4, 86500⟩])
          [("h1", 10), ("h2", 7)]) 86400 ≠
      specDailyFees
        (pureTransfers
          [⟨100, "h1", "0xA", "0xB", 5, 86400⟩,
           ⟨100, "h1", "0xB", "0xC", 3, 86450⟩,
           ⟨101, "h2", ZERO_ADDRESS, "0xD", 4, 86500⟩])
        (mintEvents
          [⟨100, "h1", "0xA", "0xB", 5, 86400⟩,
           ⟨100, "h1", "0xB", "0xC", 3, 86450⟩,
           ⟨101, "h2", ZERO_ADDRESS, "0xD", 4, 86500⟩])
        (burnEvents
          [⟨100, "h1", "0xA", "0xB", 5, 86400⟩,
           ⟨100, "h1", "0xB", "0xC", 3, 86450⟩,
           ⟨101, "h2", ZERO_ADDRESS, "0xD", 4, 86500⟩])
        [("h1", 10), ("h2", 7)] 86400 := by decide

/-- Claim C2 as amended: for every committed batch and UTC day, the daily
`total_fees_native` is increased by the fee of each PURE-TRANSFER EVENT of
that day (a tx hash shared by k pure transfers is counted k times, a hash
missing from the fee map counts 0), and mint/burn events contribute no fee to
the daily row at all. -/
theorem daily_fees_per_pure_transfer_event (allTransfers : List TransferEvent)
    (fees : FeeMap) (d : Nat) :
    feesAt
        (processEventsDaily (pureTransfers allTransfers)
          (mintEvents allTransfers) (burnEvents allTransfers) fees) d =
      (((pureTransfers allTransfers).filter
        fun t => dayKey t.timestamp = d).map
        fun t => (alookup fees t.txHash).getD 0).sum :=
  processEventsDaily_feesAt _ _ _ _ _

/-! ## C8: one `blocks` row per block of the window, NULL timestamps for
empty blocks -/

/-- Timestamp recorded for block `bn` in the in-memory map, when present. -/
def tsAt (m : BlockMap) (bn : Nat) : Option Nat :=
  (alookup m bn).map fun b => b.timestamp

theorem optMapConst {α β : Type} (o₁ o₂ : Option α) (c : β)
    (h : o₁.isSome = o₂.isSome) :
    o₁.map (fun _ => c) = o₂.map (fun _ => c) := by
  cases o₁ <;> cases o₂ <;> simp_all

theorem tsAt_updateBlock (m : BlockMap) (bn' ts' : Nat)
    (F : BlockData → BlockData) (bn : Nat)
    (hF : ∀ x, (F x).timestamp = x.timestamp) :
    tsAt (updateBlock m bn' ts' F) bn =
      if bn = bn' then (alookup m bn).map (fun _ => ts') else tsAt m bn := by
  unfold updateBlock
  cases h : alookup m bn' with
  | none =>
    by_cases hb : bn = bn'
    · subst hb
      simp [tsAt, h]
    · simp [hb]
  | some b =>
    simp only [h]
    by_cases hb : bn = bn'
    · subst hb
      simp [tsAt, alookup_aset_self, hF, h]
    · simp [tsAt, alookup_aset_other _ _ _ _ hb, hb]

theorem presence_updateBlock (m : BlockMap) (bn' ts' : Nat)
    (F : BlockData → BlockData) (bn : Nat) :
    (alookup (updateBlock m bn' ts' F) bn).isSome =
      (alookup m bn).isSome := by
  unfold updateBlock
  cases h : alookup m bn' with
  | none => rfl
  | some b =>
    simp only [h]
    by_cases hb : bn = bn'
    · subst hb
      simp [alookup_aset_self, h]
    · simp [alookup_aset_other _ _ _ _ hb]

theorem tsAt_foldl {β : Type} (step : BlockMap → β → BlockMap)
    (bnOf tsOf : β → Nat) (cond : β → Bool) (chainTs : Nat → Nat) (bn : Nat)
    (hstep : ∀ m e, tsAt (step m e) bn =
      if cond e = true ∧ bnOf e = bn then
        (alookup m bn).map (fun _ => tsOf e)
      else tsAt m bn)
    (hpres : ∀ m e, (alookup (step m e) bn).isSome = (alookup m bn).isSome) :
    ∀ (l : List β) (m : BlockMap), (∀ e ∈ l, tsOf e = chainTs (bnOf e)) →
      tsAt (l.foldl step m) bn =
        if l.any (fun e => cond e && decide (bnOf e = bn)) then
          (alookup m bn).map (fun _ => chainTs bn)
        else tsAt m bn
  | [], m, _ => by simp
  | e :: t, m, hts => by
    have presFold : ∀ (l' : List β) (m' : BlockMap),
        (alookup (l'.foldl step m') bn).isSome = (alookup m' bn).isSome := by
      intro l'
      induction l' with
      | nil => intro m'; rfl
      | cons e' t' ih =>
        intro m'
        rw [List.foldl_cons, ih, hpres]
    have ih := tsAt_foldl step bnOf tsOf cond chainTs bn hstep hpres t
      (step m e) (fun e' he' => hts e' (List.mem_cons_of_mem _ he'))
    rw [List.foldl_cons, ih]
    by_cases hany : t.any (fun e => cond e && decide (bnOf e = bn)) = true
    · rw [if_pos hany]
      have : (alookup (step m e) bn).isSome = (alookup m bn).isSome :=
        hpres m e
      rw [optMapConst _ _ _ this]
      have : (e :: t).any (fun e => cond e && decide (bnOf e = bn)) = true := by
        simp only [List.any_cons, Bool.or_eq_true]
        exact Or.inr hany
      rw [if_pos this]
    · rw [if_neg hany, hstep]
      by_cases hcond : cond e = true ∧ bnOf e = bn
      · rw [if_pos hcond]
        have hts_e : tsOf e = chainTs bn := by
          rw [hts e (List.mem_cons_self _ _), hcond.2]
        rw [hts_e]
        have : (e :: t).any (fun e => cond e && decide (bnOf e = bn)) = true := by
          simp only [List.any_cons, Bool.or_eq_true]
          exact Or.inl (by simp [hcond.1, hcond.2])
        rw [if_pos this]
      · rw [if_neg hcond]
        have : ¬(e :: t).any (fun e => cond e && decide (bnOf e = bn)) = true := by
          simp only [List.any_cons, Bool.or_eq_true]
          rintro (h1 | h2)
          · exact hcond (by simpa using h1)
          · exact hany h2
        rw [if_neg this]

theorem presence_foldl {β : Type} (step : BlockMap → β → BlockMap) (bn : Nat)
    (hpres : ∀ m e, (alookup (step m e) bn).isSome = (alookup m bn).isSome) :
    ∀ (l : List β) (m : BlockMap),
      (alookup (l.foldl step m) bn).isSome = (alookup m bn).isSome
  | [], _ => rfl
  | e :: t, m => by
    rw [List.foldl_cons, presence_foldl step bn hpres t, hpres]

/-! Per-step timestamp/presence facts for the six loops of
`processBlockSummaries`. -/

theorem tsAt_blockStepTransfer (m : BlockMap) (t : TransferEvent) (bn : Nat) :
    tsAt (blockStepTransfer m t) bn =
      if (fun _ : TransferEvent => true) t = true ∧ t.blockNumber = bn then
        (alookup m bn).map (fun _ => t.timestamp)
      else tsAt m bn := by
  have h := tsAt_updateBlock m t.blockNumber t.timestamp
    (fun b => { b with txCount := b.txCount + 1,
                       senders := sadd b.senders t.fromAddr,
                       receivers := sadd b.receivers t.toAddr,
                       totalTransferred := b.totalTransferred + t.value })
    bn (fun x => rfl)
  simp only [blockStepTransfer]
  rw [h]
  by_cases hb : bn = t.blockNumber
  · subst hb
    simp
  · have hb2 : ¬t.blockNumber = bn := fun hh => hb hh.symm
    rw [if_neg hb, if_neg (fun hc => hb2 hc.2)]

theorem tsAt_blockStepMint (m : BlockMap) (e : MintEvent) (bn : Nat) :
    tsAt (blockStepMint m e) bn =
      if (fun _ : MintEvent => true) e = true ∧ e.blockNumber = bn then
        (alookup m bn).map (fun _ => e.timestamp)
      else tsAt m bn := by
  have h := tsAt_updateBlock m e.blockNumber e.timestamp
    (fun b => { b with minted := b.minted + e.value,
                       receivers := sadd b.receivers e.toAddr,
                       txCount := b.txCount + 1 })
    bn (fun x => rfl)
  simp only [blockStepMint]
  rw [h]
  by_cases hb : bn = e.blockNumber
  · subst hb
    simp
  · have hb2 : ¬e.blockNumber = bn := fun hh => hb hh.symm
    rw [if_neg hb, if_neg (fun hc => hb2 hc.2)]

theorem tsAt_blockStepBurn (m : BlockMap) (e : BurnEvent) (bn : Nat) :
    tsAt (blockStepBurn m e) bn =
      if (fun _ : BurnEvent => true) e = true ∧ e.blockNumber = bn then
        (alookup m bn).map (fun _ => e.timestamp)
      else tsAt m bn := by
  have h := tsAt_updateBlock m e.blockNumber e.timestamp
    (fun b => { b with burned := b.burned + e.value,
                       senders := sadd b.senders e.fromAddr,
                       txCount := b.txCount + 1 })
    bn (fun x => rfl)
  simp only [blockStepBurn]
  rw [h]
  by_cases hb : bn = e.blockNumber
  · subst hb
    simp
  · have hb2 : ¬e.blockNumber = bn := fun hh => hb hh.symm
    rw [if_neg hb, if_neg (fun hc => hb2 hc.2)]

theorem tsAt_blockFeeTransfer (fees : FeeMap) (m : BlockMap)
    (t : TransferEvent) (bn : Nat) :
    tsAt (blockFeeTransfer fees m t) bn =
      if (fun t : TransferEvent => (alookup fees t.txHash).isSome) t = true ∧
          t.blockNumber = bn then
        (alookup m bn).map (fun _ => t.timestamp)
      else tsAt m bn := by
  unfold blockFeeTransfer
  cases hf : alookup fees t.txHash with
  | none => simp [hf]
  | some fee =>
    have h := tsAt_updateBlock m t.blockNumber t.timestamp
      (fun b => { b with totalFeesNative := b.totalFeesNative + fee })
      bn (fun x => rfl)
    rw [h]
    by_cases hb : bn = t.blockNumber
    · subst hb
      simp [hf]
    · have hb2 : ¬t.blockNumber = bn := fun hh => hb hh.symm
      rw [if_neg hb, if_neg (fun hc => hb2 hc.2)]

theorem tsAt_blockFeeMint (fees : FeeMap) (m : BlockMap) (e : MintEvent)
    (bn : Nat) :
    tsAt (blockFeeMint fees m e) bn =
      if (fun e : MintEvent => (alookup fees e.txHash).isSome) e = true ∧
          e.blockNumber = bn then
        (alookup m bn).map (fun _ => e.timestamp)
      else tsAt m bn := by
  unfold blockFeeMint
  cases hf : alookup fees e.txHash with
  | none => simp [hf]
  | some fee =>
    have h := tsAt_updateBlock m e.blockNumber e.timestamp
      (fun b => { b with totalFeesNative := b.totalFeesNative + fee })
      bn (fun x => rfl)
    rw [h]
    by_cases hb : bn = e.blockNumber
    · subst hb
      simp [hf]
    · have hb2 : ¬e.blockNumber = bn := fun hh => hb hh.symm
      rw [if_neg hb, if_neg (fun hc => hb2 hc.2)]

theorem tsAt_blockFeeBurn (fees : FeeMap) (m : BlockMap) (e : BurnEvent)
    (bn : Nat) :
    tsAt (blockFeeBurn fees m e) bn =
      if (fun e : BurnEvent => (alookup fees e.txHash).isSome) e = true ∧
          e.blockNumber = bn then
        (alookup m bn).map (fun _ => e.timestamp)
      else tsAt m bn := by
  unfold blockFeeBurn
  cases hf : alookup fees e.txHash with
  | none => simp [hf]
  | some fee =>
    have h := tsAt_updateBlock m e.blockNumber e.timestamp
      (fun b => { b with totalFeesNative := b.totalFeesNative + fee })
      bn (fun x => rfl)
    rw [h]
    by_cases hb : bn = e.blockNumber
    · subst hb
      simp [hf]
    · have hb2 : ¬e.blockNumber = bn := fun hh => hb hh.symm
      rw [if_neg hb, if_neg (fun hc => hb2 hc.2)]

theorem presence_blockStepTransfer (m : BlockMap) (t : TransferEvent)
    (bn : Nat) :
    (alookup (blockStepTransfer m t) bn).isSome = (alookup m bn).isSome :=
  presence_updateBlock m t.blockNumber t.timestamp _ bn

theorem presence_blockStepMint (m : BlockMap) (e : MintEvent) (bn : Nat) :
    (alookup (blockStepMint m e) bn).isSome = (alookup m bn).isSome :=
  presence_updateBlock m e.blockNumber e.timestamp _ bn

theorem presence_blockStepBurn (m : BlockMap) (e : BurnEvent) (bn : Nat) :
    (alookup (blockStepBurn m e) bn).isSome = (alookup m bn).isSome :=
  presence_updateBlock m e.blockNumber e.timestamp _ bn

theorem presence_blockFeeTransfer (fees : FeeMap) (m : BlockMap)
    (t : TransferEvent) (bn : Nat) :
    (alookup (blockFeeTransfer fees m t) bn).isSome =
      (alookup m bn).isSome := by
  unfold blockFeeTransfer
  cases hf : alookup fees t.txHash with
  | none => rfl
  | some fee => exact presence_updateBlock m t.blockNumber t.timestamp _ bn

theorem presence_blockFeeMint (fees : FeeMap) (m : BlockMap) (e : MintEvent)
    (bn : Nat) :
    (alookup (blockFeeMint fees m e) bn).isSome = (alookup m bn).isSome := by
  unfold blockFeeMint
  cases hf : alookup fees e.txHash with
  | none => rfl
  | some fee => exact presence_updateBlock m e.blockNumber e.timestamp _ bn

theorem presence_blockFeeBurn (fees : FeeMap) (m : BlockMap) (e : BurnEvent)
    (bn : Nat) :
    (alookup (blockFeeBurn fees m e) bn).isSome = (alookup m bn).isSome := by
  unfold blockFeeBurn
  cases hf : alookup fees e.txHash with
  | none => rfl
  | some fee => exact presence_updateBlock m e.blockNumber e.timestamp _ bn

theorem alookup_initBlocks :
    ∀ (len start bn : Nat), start ≤ bn → bn < start + len →
      alookup ((List.range' start len).map fun b => (b, freshBlock b)) bn =
        some (freshBlock bn)
  | 0, start, bn, h1, h2 => by omega
  | len + 1, start, bn, h1, h2 => by
    by_cases hb : start = bn
    · subst hb
      simp [List.range', alookup]
    · have := alookup_initBlocks len (start + 1) bn (by omega) (by omega)
      simpa [List.range', alookup, hb] using this

theorem aset_keys {α β : Type} [DecidableEq α] (m : List (α × β)) (k : α)
    (v : β) (h : alookup m k ≠ none) :
    (aset m k v).map Prod.fst = m.map Prod.fst := by
  induction m with
  | nil => simp [alookup] at h
  | cons kv rest ih =>
    obtain ⟨a, b⟩ := kv
    by_cases hk : a = k
    · simp [aset, hk]
    · simp only [alookup, hk, if_false] at h
      simp [aset, hk, ih h]

theorem updateBlock_keys (m : BlockMap) (bn ts : Nat)
    (F : BlockData → BlockData) :
    (updateBlock m bn ts F).map Prod.fst = m.map Prod.fst := by
  unfold updateBlock
  cases h : alookup m bn with
  | none => rfl
  | some b =>
    simp only [h]
    exact aset_keys m bn _ (by simp [h])

theorem keys_foldl {β : Type} (step : BlockMap → β → BlockMap)
    (hstep : ∀ m e, (step m e).map Prod.fst = m.map Prod.fst) :
    ∀ (l : List β) (m : BlockMap),
      (l.foldl step m).map Prod.fst = m.map Prod.fst
  | [], _ => rfl
  | e :: t, m => by
    rw [List.foldl_cons, keys_foldl step hstep t, hstep]

theorem keys_blockStepTransfer (m : BlockMap) (t : TransferEvent) :
    (blockStepTransfer m t).map Prod.fst = m.map Prod.fst :=
  updateBlock_keys m t.blockNumber t.timestamp _

theorem keys_blockStepMint (m : BlockMap) (e : MintEvent) :
    (blockStepMint m e).map Prod.fst = m.map Prod.fst :=
  updateBlock_keys m e.blockNumber e.timestamp _

theorem keys_blockStepBurn (m : BlockMap) (e : BurnEvent) :
    (blockStepBurn m e).map Prod.fst = m.map Prod.fst :=
  updateBlock_keys m e.blockNumber e.timestamp _

theorem keys_blockFeeTransfer (fees : FeeMap) (m : BlockMap)
    (t : TransferEvent) :
    (blockFeeTransfer fees m t).map Prod.fst = m.map Prod.fst := by
  unfold blockFeeTransfer
  cases hf : alookup fees t.txHash with
  | none => rfl
  | some fee => exact updateBlock_keys m t.blockNumber t.timestamp _

theorem keys_blockFeeMint (fees : FeeMap) (m : BlockMap) (e : MintEvent) :
    (blockFeeMint fees m e).map Prod.fst = m.map Prod.fst := by
  unfold blockFeeMint
  cases hf : alookup fees e.txHash with
  | none => rfl
  | some fee => exact updateBlock_keys m e.blockNumber e.timestamp _

theorem keys_blockFeeBurn (fees : FeeMap) (m : BlockMap) (e : BurnEvent) :
    (blockFeeBurn fees m e).map Prod.fst = m.map Prod.fst := by
  unfold blockFeeBurn
  cases hf : alookup fees e.txHash with
  | none => rfl
  | some fee => exact updateBlock_keys m e.blockNumber e.timestamp _

theorem initBlocks_keys (fromB toB : Nat) :
    (initBlocks fromB toB).map Prod.fst =
      List.range' fromB (toB + 1 - fromB) := by
  simp [initBlocks, List.map_map, Function.comp_def]

theorem processBlockSummariesMap_eq (T : List TransferEvent)
    (M : List MintEvent) (B : List BurnEvent) (fees : FeeMap)
    (fromB toB : Nat) :
    processBlockSummariesMap T M B fees fromB toB =
      if blockTxHashes T M B = [] then
        B.foldl blockStepBurn
          (M.foldl blockStepMint
            (T.foldl blockStepTransfer (initBlocks fromB toB)))
      else
        B.foldl (blockFeeBurn fees)
          (M.foldl (blockFeeMint fees)
            (T.foldl (blockFeeTransfer fees)
              (B.foldl blockStepBurn
                (M.foldl blockStepMint
                  (T.foldl blockStepTransfer (initBlocks fromB toB)))))) :=
  rfl

theorem processBlockSummariesMap_keys (T : List TransferEvent)
    (M : List MintEvent) (B : List BurnEvent) (fees : FeeMap)
    (fromB toB : Nat) :
    (processBlockSummariesMap T M B fees fromB toB).map Prod.fst =
      List.range' fromB (toB + 1 - fromB) := by
  rw [processBlockSummariesMap_eq]
  by_cases hh : blockTxHashes T M B = []
  · rw [if_pos hh,
      keys_foldl blockStepBurn keys_blockStepBurn,
      keys_foldl blockStepMint keys_blockStepMint,
      keys_foldl blockStepTransfer keys_blockStepTransfer,
      initBlocks_keys]
  · rw [if_neg hh,
      keys_foldl (blockFeeBurn fees) (keys_blockFeeBurn fees),
      keys_foldl (blockFeeMint fees) (keys_blockFeeMint fees),
      keys_foldl (blockFeeTransfer fees) (keys_blockFeeTransfer fees),
      keys_foldl blockStepBurn keys_blockStepBurn,
      keys_foldl blockStepMint keys_blockStepMint,
      keys_foldl blockStepTransfer keys_blockStepTransfer,
      initBlocks_keys]

theorem optMapConst_some {α β : Type} (o : Option α) (c : β)
    (h : o.isSome = true) : o.map (fun _ => c) = some c := by
  cases o <;> simp_all

/-- Claim C8: for every processed window `[fromB, toB]`, the block map emits
exactly one `blocks` row per block number of the inclusive range (in order);
a block with no event of the window keeps the NULL timestamp, and a block
with at least one event carries the chain's (positive) block timestamp for
that block. -/
theorem blocks_rows_per_window (transfers : List TransferEvent)
    (mints : List MintEvent) (burns : List BurnEvent) (fees : FeeMap)
    (fromB toB : Nat) (chainTs : Nat → Nat)
    (hts1 : ∀ t ∈ transfers, t.timestamp = chainTs t.blockNumber)
    (hts2 : ∀ e ∈ mints, e.timestamp = chainTs e.blockNumber)
    (hts3 : ∀ e ∈ burns, e.timestamp = chainTs e.blockNumber)
    (hpos : ∀ bn, 0 < chainTs bn) :
    (processBlockSummariesMap transfers mints burns fees fromB toB).map
        Prod.fst = List.range' fromB (toB + 1 - fromB) ∧
      ∀ bn, fromB ≤ bn → bn ≤ toB →
        ∃ b, alookup (processBlockSummariesMap transfers mints burns fees
              fromB toB) bn = some b ∧
          (¬((∃ t ∈ transfers, t.blockNumber = bn) ∨
              (∃ e ∈ mints, e.blockNumber = bn) ∨
              (∃ e ∈ burns, e.blockNumber = bn)) →
            (toBlockRow b).timestamp = none) ∧
          (((∃ t ∈ transfers, t.blockNumber = bn) ∨
              (∃ e ∈ mints, e.blockNumber = bn) ∨
              (∃ e ∈ burns, e.blockNumber = bn)) →
            (toBlockRow b).timestamp = some (chainTs bn)) := by
  refine ⟨processBlockSummariesMap_keys transfers mints burns fees fromB toB,
    ?_⟩
  intro bn hb1 hb2
  have hpres0 : alookup (initBlocks fromB toB) bn = some (freshBlock bn) := by
    have h := alookup_initBlocks (toB + 1 - fromB) fromB bn hb1 (by omega)
    simpa [initBlocks] using h
  have hp0 : (alookup (initBlocks fromB toB) bn).isSome = true := by
    simp [hpres0]
  have hts0 : tsAt (initBlocks fromB toB) bn = some 0 := by
    simp [tsAt, hpres0, freshBlock]
  set m1 := transfers.foldl blockStepTransfer (initBlocks fromB toB) with hm1
  set m2 := mints.foldl blockStepMint m1 with hm2
  set m3 := burns.foldl blockStepBurn m2 with hm3
  set m4 := transfers.foldl (blockFeeTransfer fees) m3 with hm4
  set m5 := mints.foldl (blockFeeMint fees) m4 with hm5
  set m6 := burns.foldl (blockFeeBurn fees) m5 with hm6
  have hp1 : (alookup m1 bn).isSome = true := by
    rw [hm1, presence_foldl blockStepTransfer bn
      (fun m t => presence_blockStepTransfer m t bn) transfers, hp0]
  have hp2 : (alookup m2 bn).isSome = true := by
    rw [hm2, presence_foldl blockStepMint bn
      (fun m e => presence_blockStepMint m e bn) mints, hp1]
  have hp3 : (alookup m3 bn).isSome = true := by
    rw [hm3, presence_foldl blockStepBurn bn
      (fun m e => presence_blockStepBurn m e bn) burns, hp2]
  have hp4 : (alookup m4 bn).isSome = true := by
    rw [hm4, presence_foldl (blockFeeTransfer fees) bn
      (fun m t => presence_blockFeeTransfer fees m t bn) transfers, hp3]
  have hp5 : (alookup m5 bn).isSome = true := by
    rw [hm5, presence_foldl (blockFeeMint fees) bn
      (fun m e => presence_blockFeeMint fees m e bn) mints, hp4]
  have hp6 : (alookup m6 bn).isSome = true := by
    rw [hm6, presence_foldl (blockFeeBurn fees) bn
      (fun m e => presence_blockFeeBurn fees m e bn) burns, hp5]
  have h1 := tsAt_foldl blockStepTransfer (fun t => t.blockNumber)
    (fun t => t.timestamp) (fun _ => true) chainTs bn
    (fun m t => tsAt_blockStepTransfer m t bn)
    (fun m t => presence_blockStepTransfer m t bn) transfers
    (initBlocks fromB toB) hts1
  have h2 := tsAt_foldl blockStepMint (fun e => e.blockNumber)
    (fun e => e.timestamp) (fun _ => true) chainTs bn
    (fun m e => tsAt_blockStepMint m e bn)
    (fun m e => presence_blockStepMint m e bn) mints m1 hts2
  have h3 := tsAt_foldl blockStepBurn (fun e => e.blockNumber)
    (fun e => e.timestamp) (fun _ => true) chainTs bn
    (fun m e => tsAt_blockStepBurn m e bn)
    (fun m e => presence_blockStepBurn m e bn) burns m2 hts3
  have h4 := tsAt_foldl (blockFeeTransfer fees) (fun t => t.blockNumber)
    (fun t => t.timestamp) (fun t => (alookup fees t.txHash).isSome) chainTs bn
    (fun m t => tsAt_blockFeeTransfer fees m t bn)
    (fun m t => presence_blockFeeTransfer fees m t bn) transfers m3 hts1
  have h5 := tsAt_foldl (blockFeeMint fees) (fun e => e.blockNumber)
    (fun e => e.timestamp) (fun e => (alookup fees e.txHash).isSome) chainTs bn
    (fun m e => tsAt_blockFeeMint fees m e bn)
    (fun m e => presence_blockFeeMint fees m e bn) mints m4 hts2
  have h6 := tsAt_foldl (blockFeeBurn fees) (fun e => e.blockNumber)
    (fun e => e.timestamp) (fun e => (alookup fees e.txHash).isSome) chainTs bn
    (fun m e => tsAt_blockFeeBurn fees m e bn)
    (fun m e => presence_blockFeeBurn fees m e bn) burns m5 hts3
  rw [optMapConst_some _ _ hp0] at h1
  rw [optMapConst_some _ _ hp1] at h2
  rw [optMapConst_some _ _ hp2] at h3
  rw [optMapConst_some _ _ hp3] at h4
  rw [optMapConst_some _ _ hp4] at h5
  rw [optMapConst_some _ _ hp5] at h6
  rw [hts0] at h1
  rw [← hm1] at h1
  rw [← hm2] at h2
  rw [← hm3] at h3
  rw [← hm4] at h4
  rw [← hm5] at h5
  rw [← hm6] at h6
  simp only [Bool.true_and] at h1 h2 h3
  have hm3val : tsAt m3 bn =
      if (transfers.any (fun e => decide (e.blockNumber = bn)) ||
          mints.any (fun e => decide (e.blockNumber = bn)) ||
          burns.any (fun e => decide (e.blockNumber = bn))) then
        some (chainTs bn)
      else some 0 := by
    by_cases hA : transfers.any (fun e => decide (e.blockNumber = bn)) = true <;>
      by_cases hM : mints.any (fun e => decide (e.blockNumber = bn)) = true <;>
        by_cases hC : burns.any (fun e => decide (e.blockNumber = bn)) = true <;>
          simp [h1, h2, h3, hA, hM, hC]
  have himp1 : transfers.any
        (fun e => (alookup fees e.txHash).isSome &&
          decide (e.blockNumber = bn)) = true →
      transfers.any (fun e => decide (e.blockNumber = bn)) = true := by
    intro hc
    rcases List.any_eq_true.mp hc with ⟨t, ht, hcond⟩
    have hcond2 : decide (t.blockNumber = bn) = true := by
      simp only [Bool.and_eq_true] at hcond
      exact hcond.2
    exact List.any_eq_true.mpr ⟨t, ht, hcond2⟩
  have himp2 : mints.any
        (fun e => (alookup fees e.txHash).isSome &&
          decide (e.blockNumber = bn)) = true →
      mints.any (fun e => decide (e.blockNumber = bn)) = true := by
    intro hc
    rcases List.any_eq_true.mp hc with ⟨t, ht, hcond⟩
    have hcond2 : decide (t.blockNumber = bn) = true := by
      simp only [Bool.and_eq_true] at hcond
      exact hcond.2
    exact List.any_eq_true.mpr ⟨t, ht, hcond2⟩
  have himp3 : burns.any
        (fun e => (alookup fees e.txHash).isSome &&
          decide (e.blockNumber = bn)) = true →
      burns.any (fun e => decide (e.blockNumber = bn)) = true := by
    intro hc
    rcases List.any_eq_true.mp hc with ⟨t, ht, hcond⟩
    have hcond2 : decide (t.blockNumber = bn) = true := by
      simp only [Bool.and_eq_true] at hcond
      exact hcond.2
    exact List.any_eq_true.mpr ⟨t, ht, hcond2⟩
  have hm6val : tsAt m6 bn =
      if (transfers.any (fun e => decide (e.blockNumber = bn)) ||
          mints.any (fun e => decide (e.blockNumber = bn)) ||
          burns.any (fun e => decide (e.blockNumber = bn))) then
        some (chainTs bn)
      else some 0 := by
    by_cases hOr : (transfers.any (fun e => decide (e.blockNumber = bn)) ||
        mints.any (fun e => decide (e.blockNumber = bn)) ||
        burns.any (fun e => decide (e.blockNumber = bn))) = true
    · rw [if_pos hOr]
      have h3c : tsAt m3 bn = some (chainTs bn) := by
        rw [hm3val, if_pos hOr]
      have h4c : tsAt m4 bn = some (chainTs bn) := by
        by_cases hf : transfers.any
            (fun e => (alookup fees e.txHash).isSome &&
              decide (e.blockNumber = bn)) = true <;>
          simp [h4, hf, h3c]
      have h5c : tsAt m5 bn = some (chainTs bn) := by
        by_cases hf : mints.any
            (fun e => (alookup fees e.txHash).isSome &&
              decide (e.blockNumber = bn)) = true <;>
          simp [h5, hf, h4c]
      by_cases hf : burns.any
          (fun e => (alookup fees e.txHash).isSome &&
            decide (e.blockNumber = bn)) = true <;>
        simp [h6, hf, h5c]
    · rw [if_neg hOr]
      simp only [Bool.or_eq_true, not_or] at hOr
      obtain ⟨hA, hM⟩ := hOr
      obtain ⟨hA, hM2⟩ := And.intro hA hM
      have hAn : transfers.any (fun e => decide (e.blockNumber = bn)) = false := by
        cases hAA : transfers.any (fun e => decide (e.blockNumber = bn)) <;>
          simp_all
      have hMn : mints.any (fun e => decide (e.blockNumber = bn)) = false := by
        cases hMM : mints.any (fun e => decide (e.blockNumber = bn)) <;>
          simp_all
      have hBn : burns.any (fun e => decide (e.blockNumber = bn)) = false := by
        cases hBB : burns.any (fun e => decide (e.blockNumber = bn)) <;>
          simp_all
      have hf1 : transfers.any
          (fun e => (alookup fees e.txHash).isSome &&
            decide (e.blockNumber = bn)) = false := by
        cases hFF : transfers.any
            (fun e => (alookup fees e.txHash).isSome &&
              decide (e.blockNumber = bn))
        · rfl
        · exact absurd (himp1 hFF) (by simp [hAn])
      have hf2 : mints.any
          (fun e => (alookup fees e.txHash).isSome &&
            decide (e.blockNumber = bn)) = false := by
        cases hFF : mints.any
            (fun e => (alookup fees e.txHash).isSome &&
              decide (e.blockNumber = bn))
        · rfl
        · exact absurd (himp2 hFF) (by simp [hMn])
      have hf3 : burns.any
          (fun e => (alookup fees e.txHash).isSome &&
            decide (e.blockNumber = bn)) = false := by
        cases hFF : burns.any
            (fun e => (alookup fees e.txHash).isSome &&
              decide (e.blockNumber = bn))
        · rfl
        · exact absurd (himp3 hFF) (by simp [hBn])
      rw [h6, h5, h4, hm3val]
      simp [hf1, hf2, hf3, hAn, hMn, hBn]
  have hEventIff : ((∃ t ∈ transfers, t.blockNumber = bn) ∨
      (∃ e ∈ mints, e.blockNumber = bn) ∨
      (∃ e ∈ burns, e.blockNumber = bn)) ↔
      (transfers.any (fun e => decide (e.blockNumber = bn)) ||
        mints.any (fun e => decide (e.blockNumber = bn)) ||
        burns.any (fun e => decide (e.blockNumber = bn))) = true := by
    simp [List.any_eq_true, or_assoc]
  have hfinal : tsAt (processBlockSummariesMap transfers mints burns fees
      fromB toB) bn =
      if (transfers.any (fun e => decide (e.blockNumber = bn)) ||
          mints.any (fun e => decide (e.blockNumber = bn)) ||
          burns.any (fun e => decide (e.blockNumber = bn))) then
        some (chainTs bn)
      else some 0 := by
    rw [processBlockSummariesMap_eq]
    by_cases hh : blockTxHashes transfers mints burns = []
    · rw [if_pos hh, ← hm1, ← hm2, ← hm3]
      exact hm3val
    · rw [if_neg hh, ← hm1, ← hm2, ← hm3, ← hm4, ← hm5, ← hm6]
      exact hm6val
  by_cases hev : ((∃ t ∈ transfers, t.blockNumber = bn) ∨
      (∃ e ∈ mints, e.blockNumber = bn) ∨
      (∃ e ∈ burns, e.blockNumber = bn))
  · have hb : tsAt (processBlockSummariesMap transfers mints burns fees
        fromB toB) bn = some (chainTs bn) := by
      rw [hfinal, if_pos (hEventIff.mp hev)]
    rcases hlook : alookup (processBlockSummariesMap transfers mints burns
        fees fromB toB) bn with _ | b
    · simp [tsAt, hlook] at hb
    · refine ⟨b, rfl, fun hno => absurd hev hno, fun _ => ?_⟩
      simp only [tsAt, hlook, Option.map_some', Option.some.injEq] at hb
      simp [toBlockRow, hb, hpos bn]
  · have hb : tsAt (processBlockSummariesMap transfers mints burns fees
        fromB toB) bn = some 0 := by
      rw [hfinal, if_neg (fun hc => hev (hEventIff.mpr hc))]
    rcases hlook : alookup (processBlockSummariesMap transfers mints burns
        fees fromB toB) bn with _ | b
    · simp [tsAt, hlook] at hb
    · refine ⟨b, rfl, fun _ => ?_, fun hyes => absurd hyes hev⟩
      simp only [tsAt, hlook, Option.map_some', Option.some.injEq] at hb
      simp [toBlockRow, hb]

/-- Witness for C8: window [10, 12] with a single transfer in block 11 and
the constant chain timestamp 7. -/
theorem blocks_rows_per_window_witness :
    ((∀ t ∈ [(⟨11, "h1", "0xA", "0xB", 5, 7⟩ : TransferEvent)],
        t.timestamp = (fun _ : Nat => 7) t.blockNumber) ∧
      (∀ e ∈ ([] : List MintEvent),
        e.timestamp = (fun _ : Nat => 7) e.blockNumber) ∧
      (∀ e ∈ ([] : List BurnEvent),
        e.timestamp = (fun _ : Nat => 7) e.blockNumber) ∧
      (∀ bn, 0 < (fun _ : Nat => 7) bn)) ∧
      ((processBlockSummariesMap [⟨11, "h1", "0xA", "0xB", 5, 7⟩] [] []
          [("h1", 3)] 10 12).map Prod.fst = List.range' 10 (12 + 1 - 10) ∧
        ∀ bn, 10 ≤ bn → bn ≤ 12 →
          ∃ b, alookup (processBlockSummariesMap
                [⟨11, "h1", "0xA", "0xB", 5, 7⟩] [] [] [("h1", 3)] 10 12)
              bn = some b ∧
            (¬((∃ t ∈ [(⟨11, "h1", "0xA", "0xB", 5, 7⟩ : TransferEvent)],
                  t.blockNumber = bn) ∨
                (∃ e ∈ ([] : List MintEvent), e.blockNumber = bn) ∨
                (∃ e ∈ ([] : List BurnEvent), e.blockNumber = bn)) →
              (toBlockRow b).timestamp = none) ∧
            (((∃ t ∈ [(⟨11, "h1", "0xA", "0xB", 5, 7⟩ : TransferEvent)],
                  t.blockNumber = bn) ∨
                (∃ e ∈ ([] : List MintEvent), e.blockNumber = bn) ∨
                (∃ e ∈ ([] : List BurnEvent), e.blockNumber = bn)) →
              (toBlockRow b).timestamp = some ((fun _ : Nat => 7) bn))) :=
  ⟨⟨by decide, by decide, by decide, fun _ => by simp⟩,
    blocks_rows_per_window [⟨11, "h1", "0xA", "0xB", 5, 7⟩] [] [] [("h1", 3)]
      10 12 (fun _ => 7) (by decide) (by decide) (by decide)
      (fun _ => by simp)⟩

/-! ## C1: the batch writes are sequential autocommit statements, not one
transaction -/

theorem applyWrite_lastSynced (db : IndexerDb) (w : BatchWrite)
    (hw : ∀ tb, w ≠ BatchWrite.syncStateUpdate tb) :
    (applyWrite db w).lastSyncedBlock = db.lastSyncedBlock := by
  cases w with
  | metricsUpsert day d => rfl
  | blocksUpsert row => rfl
  | blockAddrInsert bn addr ty =>
    simp only [applyWrite]
    cases alookup db.blockAddrs (bn, addr) <;> rfl
  | syncStateUpdate tb => exact absurd rfl (hw tb)

theorem foldl_applyWrite_lastSynced :
    ∀ (l : List BatchWrite) (db : IndexerDb),
      (∀ w ∈ l, ∀ tb, w ≠ BatchWrite.syncStateUpdate tb) →
      (l.foldl applyWrite db).lastSyncedBlock = db.lastSyncedBlock
  | [], _, _ => rfl
  | w :: t, db, hl => by
    rw [List.foldl_cons,
      foldl_applyWrite_lastSynced t (applyWrite db w)
        (fun w' hw' => hl w' (List.mem_cons_of_mem _ hw')),
      applyWrite_lastSynced db w (hl w (List.mem_cons_self _ _))]

theorem mem_blockWrites (blocks : BlockMap) (w : BatchWrite) :
    w ∈ blocks.foldr
        (fun p acc =>
          BatchWrite.blocksUpsert (toBlockRow p.2)
            :: ((blockAddresses p.2).map fun q =>
                  BatchWrite.blockAddrInsert p.1 q.1 q.2)
            ++ acc) [] →
      (∃ r, w = BatchWrite.blocksUpsert r) ∨
        ∃ bn a ty, w = BatchWrite.blockAddrInsert bn a ty := by
  induction blocks with
  | nil => intro h; simp at h
  | cons p rest ih =>
    intro h
    simp only [List.foldr_cons, List.mem_cons, List.mem_append] at h
    rcases h with (rfl | h) | h
    · exact Or.inl ⟨_, rfl⟩
    · rcases List.mem_map.mp h with ⟨q, _, rfl⟩
      exact Or.inr ⟨_, _, _, rfl⟩
    · exact ih h

theorem syncBatchWrites_prefix_noSync (transfers : List TransferEvent)
    (mints : List MintEvent) (burns : List BurnEvent) (fees : FeeMap)
    (fromB toB : Nat) (w : BatchWrite)
    (hw : w ∈
      ((processEventsDaily transfers mints burns fees).map
        fun p => BatchWrite.metricsUpsert p.1 p.2) ++
      (processBlockSummariesMap transfers mints burns fees fromB toB).foldr
        (fun p acc =>
          BatchWrite.blocksUpsert (toBlockRow p.2)
            :: ((blockAddresses p.2).map fun q =>
                  BatchWrite.blockAddrInsert p.1 q.1 q.2)
            ++ acc) []) :
    ∀ tb, w ≠ BatchWrite.syncStateUpdate tb := by
  intro tb
  rcases List.mem_append.mp hw with h | h
  · rcases List.mem_map.mp h with ⟨p, _, rfl⟩
    exact fun hc => BatchWrite.noConfusion hc
  · rcases mem_blockWrites _ w h with ⟨r, rfl⟩ | ⟨bn, a, ty, rfl⟩
    · exact fun hc => BatchWrite.noConfusion hc
    · exact fun hc => BatchWrite.noConfusion hc

theorem syncBatchWrites_split (transfers : List TransferEvent)
    (mints : List MintEvent) (burns : List BurnEvent) (fees : FeeMap)
    (fromB toB : Nat) :
    syncBatchWrites transfers mints burns fees fromB toB =
      (((processEventsDaily transfers mints burns fees).map
        fun p => BatchWrite.metricsUpsert p.1 p.2) ++
      (processBlockSummariesMap transfers mints burns fees fromB toB).foldr
        (fun p acc =>
          BatchWrite.blocksUpsert (toBlockRow p.2)
            :: ((blockAddresses p.2).map fun q =>
                  BatchWrite.blockAddrInsert p.1 q.1 q.2)
            ++ acc) []) ++ [BatchWrite.syncStateUpdate toB] := by
  unfold syncBatchWrites
  rw [List.append_assoc]

/-- Counterexample to claim C1 as stated: the window commit is not atomic.
With one pure transfer in block 100 and a failure injected right after the
first statement (the daily metrics upsert), the daily row is already
committed while the blocks rows and the sync-state update are not — so "if
processing the window fails at any point, none of these writes is committed"
is false. -/
theorem syncBatch_atomicity_counterexample :
    ¬ (∀ k,
        k < (syncBatchWrites [⟨100, "h1", "0xA", "0xB", 5, 86400⟩] [] []
            [("h1", 10)] 100 100).length →
        runWrites ⟨[], [], [], 99⟩
            (syncBatchWrites [⟨100, "h1", "0xA", "0xB", 5, 86400⟩] [] []
              [("h1", 10)] 100 100) (some k) =
          ⟨[], [], [], 99⟩) := by decide

/-- Claim C1 as amended: the daily upserts, block upserts, block-address
inserts and the sync-state update of one `[from,to]` window are issued as
separate autocommitted statements in that order (no enclosing transaction).
A failure before the end leaves exactly the already-issued prefix committed
— so daily/block rows may survive a failed window — but the
`sync_state.last_synced_block` update is the final statement, hence the
cursor never advances for a failed window (the window is re-processed), and
a successful run sets it to `to`. -/
theorem syncBatch_prefix_commit (transfers : List TransferEvent)
    (mints : List MintEvent) (burns : List BurnEvent) (fees : FeeMap)
    (fromB toB : Nat) (db : IndexerDb) (k : Nat)
    (hk : k < (syncBatchWrites transfers mints burns fees fromB toB).length) :
    runWrites db (syncBatchWrites transfers mints burns fees fromB toB)
        (some k) =
      ((syncBatchWrites transfers mints burns fees fromB toB).take k).foldl
        applyWrite db ∧
      (runWrites db (syncBatchWrites transfers mints burns fees fromB toB)
          (some k)).lastSyncedBlock = db.lastSyncedBlock ∧
      (runWrites db (syncBatchWrites transfers mints burns fees fromB toB)
          none).lastSyncedBlock = toB := by
  refine ⟨rfl, ?_, ?_⟩
  · show ((((syncBatchWrites transfers mints burns fees fromB toB).take
        k).foldl applyWrite db).lastSyncedBlock = db.lastSyncedBlock)
    rw [syncBatchWrites_split] at hk ⊢
    have hlen : k ≤ (((processEventsDaily transfers mints burns fees).map
        fun p => BatchWrite.metricsUpsert p.1 p.2) ++
      (processBlockSummariesMap transfers mints burns fees fromB toB).foldr
        (fun p acc =>
          BatchWrite.blocksUpsert (toBlockRow p.2)
            :: ((blockAddresses p.2).map fun q =>
                  BatchWrite.blockAddrInsert p.1 q.1 q.2)
            ++ acc) []).length := by
      rw [List.length_append] at hk
      simp only [List.length_singleton] at hk
      omega
    rw [List.take_append_of_le_length hlen]
    refine foldl_applyWrite_lastSynced _ db ?_
    intro w hwmem
    exact syncBatchWrites_prefix_noSync transfers mints burns fees fromB toB w
      (List.take_subset _ _ hwmem)
  · show (((syncBatchWrites transfers mints burns fees fromB toB).foldl
        applyWrite db).lastSyncedBlock = toB)
    rw [syncBatchWrites_split, List.foldl_append]
    rfl

/-- Witness for C1's amended theorem at the counterexample input, failing
after the first statement. -/
theorem syncBatch_prefix_commit_witness :
    (1 < (syncBatchWrites [⟨100, "h1", "0xA", "0xB", 5, 86400⟩] [] []
        [("h1", 10)] 100 100).length) ∧
      (runWrites ⟨[], [], [], 99⟩
          (syncBatchWrites [⟨100, "h1", "0xA", "0xB", 5, 86400⟩] [] []
            [("h1", 10)] 100 100) (some 1) =
        ((syncBatchWrites [⟨100, "h1", "0xA", "0xB", 5, 86400⟩] [] []
          [("h1", 10)] 100 100).take 1).foldl applyWrite ⟨[], [], [], 99⟩ ∧
        (runWrites ⟨[], [], [], 99⟩
            (syncBatchWrites [⟨100, "h1", "0xA", "0xB", 5, 86400⟩] [] []
              [("h1", 10)] 100 100) (some 1)).lastSyncedBlock =
          (⟨[], [], [], 99⟩ : IndexerDb).lastSyncedBlock ∧
        (runWrites ⟨[], [], [], 99⟩
            (syncBatchWrites [⟨100, "h1", "0xA", "0xB", 5, 86400⟩] [] []
              [("h1", 10)] 100 100) none).lastSyncedBlock = 100) :=
  ⟨by decide,
    syncBatch_prefix_commit [⟨100, "h1", "0xA", "0xB", 5, 86400⟩] [] []
      [("h1", 10)] 100 100 ⟨[], [], [], 99⟩ 1 (by decide)⟩

/-! ## C4: the aggregated target row of one rollup period -/

theorem find_map_replace (row : MetricsRow) :
    ∀ db : MetricsDb, db.any (fun r => rowKey r = rowKey row) = true →
      (db.map fun r => if rowKey r = rowKey row then row else r).find?
          (fun r => rowKey r = rowKey row) = some row
  | [], h => by simp at h
  | r0 :: rest, h => by
    by_cases h0 : rowKey r0 = rowKey row
    · simp [List.find?_cons, h0]
    · have hrest : rest.any (fun r => rowKey r = rowKey row) = true := by
        simp only [List.any_cons, Bool.or_eq_true] at h
        rcases h with h | h
        · exact absurd (by simpa using h) h0
        · exact h
      have ih := find_map_replace row rest hrest
      simp [List.find?_cons, h0, ih]

theorem find_append_new (row : MetricsRow) :
    ∀ db : MetricsDb, db.any (fun r => rowKey r = rowKey row) = false →
      (db ++ [row]).find? (fun r => rowKey r = rowKey row) = some row
  | [], _ => by simp [List.find?_cons]
  | r0 :: rest, h => by
    simp only [List.any_cons, Bool.or_eq_false_iff] at h
    have h0 : ¬rowKey r0 = rowKey row := by
      intro hc
      have := h.1
      simp [hc] at this
    have ih := find_append_new row rest h.2
    simp [List.find?_cons, h0, ih]

theorem findMetricsRow_upsert (db : MetricsDb) (row : MetricsRow) :
    findMetricsRow (upsertMetricsRow db row) row.contractId row.periodStart
      row.resolution = some row := by
  unfold findMetricsRow upsertMetricsRow
  by_cases hany : db.any (fun r => rowKey r = rowKey row) = true
  · rw [if_pos hany]
    exact find_map_replace row db hany
  · rw [if_neg hany]
    exact find_append_new row db (by simpa using hany)

theorem foldl_optMin_spec :
    ∀ (xs : List (Option Int)) (acc : Option Int) (v : Int),
      xs.foldl optMin acc = some v →
      (some v ∈ xs ∨ acc = some v) ∧
        (∀ w : Int, some w ∈ xs → v ≤ w) ∧
        (∀ a : Int, acc = some a → v ≤ a)
  | [], acc, v, h => by
    refine ⟨Or.inr h, ?_, ?_⟩
    · intro w hw
      simp at hw
    · intro a ha
      rw [List.foldl_nil] at h
      rw [h] at ha
      injection ha with ha
      omega
  | x :: t, acc, v, h => by
    rw [List.foldl_cons] at h
    obtain ⟨hmem, hall, hacc⟩ := foldl_optMin_spec t (optMin acc x) v h
    refine ⟨?_, ?_, ?_⟩
    · rcases hmem with hm | hm
      · exact Or.inl (List.mem_cons_of_mem _ hm)
      · cases acc with
        | none =>
          cases x with
          | none => simp [optMin] at hm
          | some b =>
            simp only [optMin] at hm
            exact Or.inl (hm ▸ List.mem_cons_self _ _)
        | some a =>
          cases x with
          | none =>
            simp only [optMin] at hm
            exact Or.inr hm
          | some b =>
            simp only [optMin, Option.some.injEq] at hm
            rcases min_choice a b with hc | hc
            · rw [hc] at hm
              exact Or.inr (by rw [hm])
            · rw [hc] at hm
              exact Or.inl (hm ▸ List.mem_cons_self _ _)
    · intro w hw
      rcases List.mem_cons.mp hw with hw | hw
      · cases acc with
        | none =>
          have := hacc w (by simp [optMin, ← hw])
          exact this
        | some a =>
          have hstep : optMin (some a) x = some (min a w) := by
            rw [← hw]
            simp [optMin]
          have := hacc (min a w) hstep
          have h2 : min a w ≤ w := min_le_right a w
          omega
      · exact hall w hw
    · intro a ha
      subst ha
      cases x with
      | none =>
        have := hacc a (by simp [optMin])
        exact this
      | some b =>
        have := hacc (min a b) (by simp [optMin])
        have h2 : min a b ≤ a := min_le_left a b
        omega

theorem foldl_optMax_spec :
    ∀ (xs : List (Option Int)) (acc : Option Int) (v : Int),
      xs.foldl optMax acc = some v →
      (some v ∈ xs ∨ acc = some v) ∧
        (∀ w : Int, some w ∈ xs → w ≤ v) ∧
        (∀ a : Int, acc = some a → a ≤ v)
  | [], acc, v, h => by
    refine ⟨Or.inr h, ?_, ?_⟩
    · intro w hw
      simp at hw
    · intro a ha
      rw [List.foldl_nil] at h
      rw [h] at ha
      injection ha with ha
      omega
  | x :: t, acc, v, h => by
    rw [List.foldl_cons] at h
    obtain ⟨hmem, hall, hacc⟩ := foldl_optMax_spec t (optMax acc x) v h
    refine ⟨?_, ?_, ?_⟩
    · rcases hmem with hm | hm
      · exact Or.inl (List.mem_cons_of_mem _ hm)
      · cases acc with
        | none =>
          cases x with
          | none => simp [optMax] at hm
          | some b =>
            simp only [optMax] at hm
            exact Or.inl (hm ▸ List.mem_cons_self _ _)
        | some a =>
          cases x with
          | none =>
            simp only [optMax] at hm
            exact Or.inr hm
          | some b =>
            simp only [optMax, Option.some.injEq] at hm
            rcases max_choice a b with hc | hc
            · rw [hc] at hm
              exact Or.inr (by rw [hm])
            · rw [hc] at hm
              exact Or.inl (hm ▸ List.mem_cons_self _ _)
    · intro w hw
      rcases List.mem_cons.mp hw with hw | hw
      · cases acc with
        | none =>
          have := hacc w (by simp [optMax, ← hw])
          exact this
        | some a =>
          have hstep : optMax (some a) x = some (max a w) := by
            rw [← hw]
            simp [optMax]
          have := hacc (max a w) hstep
          have h2 : w ≤ max a w := le_max_right a w
          omega
      · exact hall w hw
    · intro a ha
      subst ha
      cases x with
      | none =>
        have := hacc a (by simp [optMax])
        exact this
      | some b =>
        have := hacc (max a b) (by simp [optMax])
        have h2 : a ≤ max a b := le_max_left a b
        omega

theorem foldl_latest_spec :
    ∀ (xs : List MetricsRow) (acc : Option MetricsRow) (rw : MetricsRow),
      xs.foldl
          (fun best r =>
            match best with
            | none => some r
            | some b =>
              if b.periodStart < r.periodStart then some r else some b)
          acc = some rw →
      (rw ∈ xs ∨ acc = some rw) ∧
        (∀ r2 ∈ xs, r2.periodStart ≤ rw.periodStart) ∧
        (∀ a, acc = some a → a.periodStart ≤ rw.periodStart)
  | [], acc, rw, h => by
    refine ⟨Or.inr h, ?_, ?_⟩
    · intro r2 hr2
      simp at hr2
    · intro a ha
      rw [List.foldl_nil] at h
      rw [h] at ha
      injection ha with ha
      rw [ha]
  | x :: t, acc, rw, h => by
    rw [List.foldl_cons] at h
    obtain ⟨hmem, hall, hacc⟩ := foldl_latest_spec t _ rw h
    have hstep_le : x.periodStart ≤ rw.periodStart := by
      cases acc with
      | none => exact hacc x rfl
      | some b =>
        by_cases hb : b.periodStart < x.periodStart
        · exact hacc x (by simp [hb])
        · have := hacc b (by simp [hb])
          omega
    refine ⟨?_, ?_, ?_⟩
    · rcases hmem with hm | hm
      · exact Or.inl (List.mem_cons_of_mem _ hm)
      · cases acc with
        | none =>
          simp only [Option.some.injEq] at hm
          exact Or.inl (hm ▸ List.mem_cons_self _ _)
        | some b =>
          by_cases hb : b.periodStart < x.periodStart
          · simp only [hb, if_true, Option.some.injEq] at hm
            exact Or.inl (hm ▸ List.mem_cons_self _ _)
          · simp only [hb, if_false, Option.some.injEq] at hm
            exact Or.inr (by rw [hm])
    · intro r2 hr2
      rcases List.mem_cons.mp hr2 with hr2 | hr2
      · rw [hr2]
        exact hstep_le
      · exact hall r2 hr2
    · intro a ha
      subst ha
      by_cases hb : a.periodStart < x.periodStart
      · have := hstep_le
        omega
      · have := hacc a (by simp [hb])
        exact this

theorem mem_windowRows (db : MetricsDb) (c : String) (srcRes p tgtRes : Int)
    (r : MetricsRow) :
    r ∈ windowRows db c srcRes p tgtRes ↔
      r ∈ db ∧ r.contractId = c ∧ r.resolution = srcRes ∧
        p ≤ r.periodStart ∧ r.periodStart < p + tgtRes := by
  simp [windowRows, List.mem_filter, and_assoc]

theorem latestSupplyRow_spec (db : MetricsDb) (c : String) (srcRes bound : Int)
    (rw : MetricsRow) (h : latestSupplyRow db c srcRes bound = some rw) :
    rw ∈ db ∧ rw.contractId = c ∧ rw.resolution = srcRes ∧
      rw.periodStart < bound ∧
      ∀ r2 ∈ db, r2.contractId = c → r2.resolution = srcRes →
        r2.periodStart < bound → r2.periodStart ≤ rw.periodStart := by
  unfold latestSupplyRow at h
  obtain ⟨hmem, hall, _⟩ := foldl_latest_spec _ none rw h
  have hmem' : rw ∈ db.filter fun r =>
      r.contractId = c ∧ r.resolution = srcRes ∧ r.periodStart < bound := by
    rcases hmem with hm | hm
    · exact hm
    · exact absurd hm (by simp)
  have hprops := List.mem_filter.mp hmem'
  have hdec := of_decide_eq_true hprops.2
  refine ⟨hprops.1, hdec.1, hdec.2.1, hdec.2.2, ?_⟩
  intro r2 hr2 hc hres hb
  exact hall r2 (List.mem_filter.mpr ⟨hr2, by simp [hc, hres, hb]⟩)

/-- Claim C4: `aggregatePeriod` upserts, at `(contract, P, targetResolution)`,
a row whose additive fields are the sums over the source rows with
`period_start ∈ [P, P+targetSeconds)`, whose `start_block`/`end_block` are
the SQL MIN/MAX of those rows (characterised below as least/greatest attained
values), and whose `total_supply` is that of the most recent source row with
`period_start` before the end of the window. -/
theorem aggregatePeriod_row_fields (c : String) (p srcRes tgtRes : Int)
    (db : MetricsDb) :
    ∃ r, findMetricsRow (aggregatePeriod c p srcRes tgtRes db) c p tgtRes =
        some r ∧
      r.minted = ((windowRows db c srcRes p tgtRes).map fun x => x.minted).sum ∧
      r.burned = ((windowRows db c srcRes p tgtRes).map fun x => x.burned).sum ∧
      r.txCount =
        ((windowRows db c srcRes p tgtRes).map fun x => x.txCount).sum ∧
      r.uniqueSenders =
        ((windowRows db c srcRes p tgtRes).map fun x => x.uniqueSenders).sum ∧
      r.uniqueReceivers =
        ((windowRows db c srcRes p tgtRes).map fun x => x.uniqueReceivers).sum ∧
      r.totalTransferred =
        ((windowRows db c srcRes p tgtRes).map fun x => x.totalTransferred).sum ∧
      r.totalFeesNative =
        ((windowRows db c srcRes p tgtRes).map fun x => x.totalFeesNative).sum ∧
      r.totalFeesUsd =
        ((windowRows db c srcRes p tgtRes).map fun x => x.totalFeesUsd).sum ∧
      (∀ v, r.startBlock = some v →
        (∃ rw ∈ windowRows db c srcRes p tgtRes, rw.startBlock = some v) ∧
          ∀ rw ∈ windowRows db c srcRes p tgtRes, ∀ w,
            rw.startBlock = some w → v ≤ w) ∧
      (∀ v, r.endBlock = some v →
        (∃ rw ∈ windowRows db c srcRes p tgtRes, rw.endBlock = some v) ∧
          ∀ rw ∈ windowRows db c srcRes p tgtRes, ∀ w,
            rw.endBlock = some w → w ≤ v) ∧
      r.totalSupply =
        (latestSupplyRow db c srcRes (p + tgtRes)).bind
          (fun x => x.totalSupply) ∧
      (∀ rw, latestSupplyRow db c srcRes (p + tgtRes) = some rw →
        rw ∈ db ∧ rw.contractId = c ∧ rw.resolution = srcRes ∧
          rw.periodStart < p + tgtRes ∧
          ∀ r2 ∈ db, r2.contractId = c → r2.resolution = srcRes →
            r2.periodStart < p + tgtRes → r2.periodStart ≤ rw.periodStart) := by
  refine ⟨_, findMetricsRow_upsert db _, rfl, rfl, rfl, rfl, rfl, rfl, rfl,
    rfl, ?_, ?_, rfl, fun rw h => latestSupplyRow_spec db c srcRes _ rw h⟩
  · intro v hv
    have hfold : (windowRows db c srcRes p tgtRes).foldl
        (fun a r => optMin a r.startBlock) none =
        ((windowRows db c srcRes p tgtRes).map fun r => r.startBlock).foldl
          optMin none := by
      rw [List.foldl_map]
    rw [hfold] at hv
    obtain ⟨hmem, hall, _⟩ := foldl_optMin_spec _ none v hv
    constructor
    · rcases hmem with hm | hm
      · rcases List.mem_map.mp hm with ⟨rw, hrw, heq⟩
        exact ⟨rw, hrw, heq⟩
      · exact absurd hm (by simp)
    · intro rw hrw w hw
      exact hall w (List.mem_map.mpr ⟨rw, hrw, hw⟩)
  · intro v hv
    have hfold : (windowRows db c srcRes p tgtRes).foldl
        (fun a r => optMax a r.endBlock) none =
        ((windowRows db c srcRes p tgtRes).map fun r => r.endBlock).foldl
          optMax none := by
      rw [List.foldl_map]
    rw [hfold] at hv
    obtain ⟨hmem, hall, _⟩ := foldl_optMax_spec _ none v hv
    constructor
    · rcases hmem with hm | hm
      · rcases List.mem_map.mp hm with ⟨rw, hrw, heq⟩
        exact ⟨rw, hrw, heq⟩
      · exact absurd hm (by simp)
    · intro rw hrw w hw
      exact hall w (List.mem_map.mpr ⟨rw, hrw, hw⟩)

/-! ## C5: idempotence of the rollup engine -/

theorem rowKey_fields (r row : MetricsRow) (h : rowKey r = rowKey row) :
    r.contractId = row.contractId ∧ r.periodStart = row.periodStart ∧
      r.resolution = row.resolution := by
  unfold rowKey at h
  injection h with h1 h2
  injection h2 with h2 h3
  exact ⟨h1, h2, h3⟩

theorem upsert_rowsAtRes (db : MetricsDb) (row : MetricsRow) (res : Int)
    (hres : row.resolution ≠ res) :
    rowsAtRes (upsertMetricsRow db row) res = rowsAtRes db res := by
  unfold upsertMetricsRow
  by_cases hany : db.any (fun r => rowKey r = rowKey row) = true
  · rw [if_pos hany]
    clear hany
    induction db with
    | nil => rfl
    | cons r0 rest ih =>
      by_cases h0 : rowKey r0 = rowKey row
      · have hr0 : r0.resolution = row.resolution := (rowKey_fields r0 row h0).2.2
        simp only [List.map_cons, if_pos h0, rowsAtRes, List.filter_cons]
        rw [if_neg (by simp [hres]), if_neg (by simp [hr0, hres])]
        exact ih
      · simp only [List.map_cons, if_neg h0, rowsAtRes, List.filter_cons]
        by_cases hkeep : r0.resolution = res
        · rw [if_pos (by simp [hkeep]), if_pos (by simp [hkeep])]
          unfold rowsAtRes at ih
          rw [ih]
        · rw [if_neg (by simp [hkeep]), if_neg (by simp [hkeep])]
          exact ih
  · rw [if_neg hany]
    unfold rowsAtRes
    rw [List.filter_append]
    have : ([row].filter fun r => r.resolution = res) = [] := by
      simp [hres]
    rw [this, List.append_nil]

theorem aggregatePeriod_rowsAtRes (c : String) (p srcRes tgtRes res : Int)
    (db : MetricsDb) (hres : res ≠ tgtRes) :
    rowsAtRes (aggregatePeriod c p srcRes tgtRes db) res = rowsAtRes db res :=
  upsert_rowsAtRes db _ res (fun h => hres h.symm)

theorem foldl_aggregatePeriod_rowsAtRes (srcRes tgtRes res : Int)
    (hres : res ≠ tgtRes) :
    ∀ (l : List (String × Int)) (db : MetricsDb),
      rowsAtRes
          (l.foldl (fun acc cg => aggregatePeriod cg.1 cg.2 srcRes tgtRes acc)
            db) res = rowsAtRes db res
  | [], _ => rfl
  | cg :: t, db => by
    rw [List.foldl_cons,
      foldl_aggregatePeriod_rowsAtRes srcRes tgtRes res hres t,
      aggregatePeriod_rowsAtRes _ _ _ _ _ _ hres]

theorem aggregateLevel_rowsAtRes (srcRes tgtRes : Int) (n : Nat)
    (filt : Option String) (res : Int) (db : MetricsDb) (hres : res ≠ tgtRes) :
    rowsAtRes (aggregateLevel srcRes tgtRes n filt db) res =
      rowsAtRes db res :=
  foldl_aggregatePeriod_rowsAtRes srcRes tgtRes res hres _ db

theorem existsTargetRow_iff (db : MetricsDb) (c : String) (g tgtRes : Int) :
    existsTargetRow db c g tgtRes = true ↔
      ∃ r ∈ db, r.contractId = c ∧ r.resolution = tgtRes ∧
        r.periodStart = g := by
  simp [existsTargetRow, List.any_eq_true]

theorem upsert_existsTarget_mono (db : MetricsDb) (row : MetricsRow)
    (c : String) (g tgtRes : Int)
    (h : existsTargetRow db c g tgtRes = true) :
    existsTargetRow (upsertMetricsRow db row) c g tgtRes = true := by
  rcases (existsTargetRow_iff db c g tgtRes).mp h with ⟨r, hr, hc, hres, hps⟩
  unfold upsertMetricsRow
  by_cases hany : db.any (fun r => rowKey r = rowKey row) = true
  · rw [if_pos hany]
    refine (existsTargetRow_iff _ c g tgtRes).mpr ?_
    by_cases hk : rowKey r = rowKey row
    · refine ⟨row, ?_, ?_, ?_, ?_⟩
      · have : (if rowKey r = rowKey row then row else r) ∈
            db.map fun x => if rowKey x = rowKey row then row else x :=
          List.mem_map_of_mem _ hr
        rwa [if_pos hk] at this
      · exact (rowKey_fields r row hk).1 ▸ hc
      · exact (rowKey_fields r row hk).2.2 ▸ hres
      · exact (rowKey_fields r row hk).2.1 ▸ hps
    · refine ⟨r, ?_, hc, hres, hps⟩
      have : (if rowKey r = rowKey row then row else r) ∈
          db.map fun x => if rowKey x = rowKey row then row else x :=
        List.mem_map_of_mem _ hr
      rwa [if_neg hk] at this
  · rw [if_neg hany]
    exact (existsTargetRow_iff _ c g tgtRes).mpr
      ⟨r, List.mem_append_left _ hr, hc, hres, hps⟩

theorem aggregatePeriod_creates (c : String) (g srcRes tgtRes : Int)
    (db : MetricsDb) :
    existsTargetRow (aggregatePeriod c g srcRes tgtRes db) c g tgtRes =
      true := by
  have hfind := findMetricsRow_upsert db
    (let periodEnd := g + tgtRes
     let rows := windowRows db c srcRes g tgtRes
     { contractId := c, periodStart := g, resolution := tgtRes,
       totalSupply := (latestSupplyRow db c srcRes periodEnd).bind
         fun r => r.totalSupply,
       minted := (rows.map fun r => r.minted).sum,
       burned := (rows.map fun r => r.burned).sum,
       txCount := (rows.map fun r => r.txCount).sum,
       uniqueSenders := (rows.map fun r => r.uniqueSenders).sum,
       uniqueReceivers := (rows.map fun r => r.uniqueReceivers).sum,
       totalTransferred := (rows.map fun r => r.totalTransferred).sum,
       totalFeesNative := (rows.map fun r => r.totalFeesNative).sum,
       totalFeesUsd := (rows.map fun r => r.totalFeesUsd).sum,
       startBlock := rows.foldl (fun a r => optMin a r.startBlock) none,
       endBlock := rows.foldl (fun a r => optMax a r.endBlock) none })
  have hmem := List.mem_of_find?_eq_some hfind
  exact (existsTargetRow_iff _ c g tgtRes).mpr ⟨_, hmem, rfl, rfl, rfl⟩

theorem foldl_existsTarget_mono (srcRes tgtRes : Int) (c : String) (g : Int) :
    ∀ (l : List (String × Int)) (db : MetricsDb),
      existsTargetRow db c g tgtRes = true →
      existsTargetRow
          (l.foldl (fun acc cg => aggregatePeriod cg.1 cg.2 srcRes tgtRes acc)
            db) c g tgtRes = true
  | [], _, h => h
  | cg :: t, db, h => by
    rw [List.foldl_cons]
    exact foldl_existsTarget_mono srcRes tgtRes c g t _
      (upsert_existsTarget_mono db _ c g tgtRes h)

theorem foldl_covers (srcRes tgtRes : Int) :
    ∀ (l : List (String × Int)) (db : MetricsDb) (cg : String × Int),
      cg ∈ l →
      existsTargetRow
          (l.foldl (fun acc cg => aggregatePeriod cg.1 cg.2 srcRes tgtRes acc)
            db) cg.1 cg.2 tgtRes = true
  | [], _, _, h => by simp at h
  | hd :: t, db, cg, h => by
    rw [List.foldl_cons]
    rcases List.mem_cons.mp h with rfl | hmem
    · exact foldl_existsTarget_mono srcRes tgtRes cg.1 cg.2 t _
        (aggregatePeriod_creates cg.1 cg.2 srcRes tgtRes db)
    · exact foldl_covers srcRes tgtRes t _ cg hmem

theorem filter_base_eq (db : MetricsDb) (src : Int) (filt : Option String) :
    (db.filter fun r =>
      r.resolution = src ∧ matchesContract filt r.contractId = true) =
      (rowsAtRes db src).filter
        fun r => matchesContract filt r.contractId = true := by
  unfold rowsAtRes
  rw [List.filter_filter]
  apply List.filter_congr
  intro r _
  by_cases h1 : r.resolution = src <;>
    by_cases h2 : matchesContract filt r.contractId = true <;>
      simp [h1, h2]

theorem groupKeys_congr (db1 db2 : MetricsDb) (src tgt : Int)
    (filt : Option String) (h : rowsAtRes db1 src = rowsAtRes db2 src) :
    groupKeys db1 src tgt filt = groupKeys db2 src tgt filt := by
  unfold groupKeys
  rw [filter_base_eq, filter_base_eq, h]

theorem groupCount_congr (db1 db2 : MetricsDb) (src tgt : Int)
    (filt : Option String) (c : String) (g : Int)
    (h : rowsAtRes db1 src = rowsAtRes db2 src) :
    groupCount db1 src tgt filt c g = groupCount db2 src tgt filt c g := by
  unfold groupCount
  rw [filter_base_eq, filter_base_eq, h]

theorem existsTargetRow_rows_iff (db : MetricsDb) (c : String)
    (g tgt : Int) :
    existsTargetRow db c g tgt = true ↔
      ∃ r ∈ rowsAtRes db tgt, r.contractId = c ∧ r.periodStart = g := by
  rw [existsTargetRow_iff]
  constructor
  · rintro ⟨r, hr, hc, hres, hps⟩
    exact ⟨r, List.mem_filter.mpr ⟨hr, by simp [hres]⟩, hc, hps⟩
  · rintro ⟨r, hr, hc, hps⟩
    have h2 := List.mem_filter.mp hr
    exact ⟨r, h2.1, hc, by simpa using h2.2, hps⟩

theorem existsTargetRow_congr (db1 db2 : MetricsDb) (c : String) (g tgt : Int)
    (h : rowsAtRes db1 tgt = rowsAtRes db2 tgt) :
    existsTargetRow db1 c g tgt = existsTargetRow db2 c g tgt := by
  cases h1 : existsTargetRow db1 c g tgt <;>
    cases h2 : existsTargetRow db2 c g tgt
  · rfl
  · exfalso
    rcases (existsTargetRow_rows_iff db2 c g tgt).mp h2 with ⟨r, hr, hp⟩
    have h3 := (existsTargetRow_rows_iff db1 c g tgt).mpr ⟨r, h ▸ hr, hp⟩
    rw [h1] at h3
    exact Bool.noConfusion h3
  · exfalso
    rcases (existsTargetRow_rows_iff db1 c g tgt).mp h1 with ⟨r, hr, hp⟩
    have h3 := (existsTargetRow_rows_iff db2 c g tgt).mpr ⟨r, h ▸ hr, hp⟩
    rw [h2] at h3
    exact Bool.noConfusion h3
  · rfl

theorem pendingAggregations_congr (db1 db2 : MetricsDb) (src tgt : Int)
    (n : Nat) (filt : Option String)
    (hs : rowsAtRes db1 src = rowsAtRes db2 src)
    (ht : rowsAtRes db1 tgt = rowsAtRes db2 tgt) :
    pendingAggregations db1 src tgt n filt =
      pendingAggregations db2 src tgt n filt := by
  unfold pendingAggregations
  rw [groupKeys_congr db1 db2 src tgt filt hs]
  apply List.filter_congr
  intro cg _
  rw [groupCount_congr db1 db2 src tgt filt cg.1 cg.2 hs,
    existsTargetRow_congr db1 db2 cg.1 cg.2 tgt ht]

theorem pendingAggregations_after (src tgt : Int) (n : Nat)
    (filt : Option String) (db : MetricsDb) (hne : src ≠ tgt) :
    pendingAggregations (aggregateLevel src tgt n filt db) src tgt n filt =
      [] := by
  have hsrc : rowsAtRes (aggregateLevel src tgt n filt db) src =
      rowsAtRes db src :=
    aggregateLevel_rowsAtRes src tgt n filt src db hne
  unfold pendingAggregations
  rw [List.filter_eq_nil_iff]
  intro cg hcg
  intro hpred
  rw [decide_eq_true_eq] at hpred
  obtain ⟨hn, hex⟩ := hpred
  cases hdb : existsTargetRow db cg.1 cg.2 tgt with
  | true =>
    have h3 : existsTargetRow (aggregateLevel src tgt n filt db) cg.1 cg.2
        tgt = true :=
      foldl_existsTarget_mono src tgt cg.1 cg.2 _ db hdb
    rw [hex] at h3
    exact Bool.noConfusion h3
  | false =>
    have hkeys : cg ∈ groupKeys db src tgt filt := by
      rw [← groupKeys_congr (aggregateLevel src tgt n filt db) db src tgt filt
        hsrc]
      exact hcg
    have hcount : n ≤ groupCount db src tgt filt cg.1 cg.2 := by
      rw [← groupCount_congr (aggregateLevel src tgt n filt db) db src tgt
        filt cg.1 cg.2 hsrc]
      exact hn
    have hpending : cg ∈ pendingAggregations db src tgt n filt := by
      unfold pendingAggregations
      refine List.mem_filter.mpr ⟨hkeys, ?_⟩
      rw [decide_eq_true_eq]
      exact ⟨hcount, hdb⟩
    have h3 : existsTargetRow (aggregateLevel src tgt n filt db) cg.1 cg.2
        tgt = true :=
      foldl_covers src tgt _ db cg hpending
    rw [hex] at h3
    exact Bool.noConfusion h3

theorem aggregateLevel_id (src tgt : Int) (n : Nat) (filt : Option String)
    (db : MetricsDb)
    (h : pendingAggregations db src tgt n filt = []) :
    aggregateLevel src tgt n filt db = db := by
  unfold aggregateLevel
  rw [h]
  rfl

theorem aggregateLevel_id_after (src tgt : Int) (n : Nat)
    (filt : Option String) (hne : src ≠ tgt) (db' db : MetricsDb)
    (hs : rowsAtRes db' src =
      rowsAtRes (aggregateLevel src tgt n filt db) src)
    (ht : rowsAtRes db' tgt =
      rowsAtRes (aggregateLevel src tgt n filt db) tgt) :
    aggregateLevel src tgt n filt db' = db' := by
  apply aggregateLevel_id
  rw [pendingAggregations_congr db' (aggregateLevel src tgt n filt db) src tgt
    n filt hs ht]
  exact pendingAggregations_after src tgt n filt db hne

/-- Claim C5: the rollup engine is idempotent — running `aggregateMetrics`
twice on the same database yields exactly the database of the first run: the
second run finds no pending target periods at any of the three levels, so it
inserts no row and changes none. -/
theorem aggregateMetrics_idempotent (filt : Option String) (db : MetricsDb) :
    aggregateMetricsFn filt (aggregateMetricsFn filt db) =
      aggregateMetricsFn filt db := by
  have hAgg : ∀ x : MetricsDb, aggregateMetricsFn filt x =
      aggregateLevel 8640000 86400000 10 filt
        (aggregateLevel 864000 8640000 10 filt
          (aggregateLevel 86400 864000 10 filt x)) := fun x => rfl
  have e1 : rowsAtRes (aggregateMetricsFn filt db) 86400 =
      rowsAtRes (aggregateLevel 86400 864000 10 filt db) 86400 := by
    rw [hAgg db,
      aggregateLevel_rowsAtRes 8640000 86400000 10 filt 86400 _ (by decide),
      aggregateLevel_rowsAtRes 864000 8640000 10 filt 86400 _ (by decide)]
  have f1 : rowsAtRes (aggregateMetricsFn filt db) 864000 =
      rowsAtRes (aggregateLevel 86400 864000 10 filt db) 864000 := by
    rw [hAgg db,
      aggregateLevel_rowsAtRes 8640000 86400000 10 filt 864000 _ (by decide),
      aggregateLevel_rowsAtRes 864000 8640000 10 filt 864000 _ (by decide)]
  have hL1 : aggregateLevel 86400 864000 10 filt (aggregateMetricsFn filt db) =
      aggregateMetricsFn filt db :=
    aggregateLevel_id_after 86400 864000 10 filt (by decide) _ db e1 f1
  have e2 : rowsAtRes (aggregateMetricsFn filt db) 864000 =
      rowsAtRes (aggregateLevel 864000 8640000 10 filt
        (aggregateLevel 86400 864000 10 filt db)) 864000 := by
    rw [hAgg db,
      aggregateLevel_rowsAtRes 8640000 86400000 10 filt 864000 _ (by decide)]
  have f2 : rowsAtRes (aggregateMetricsFn filt db) 8640000 =
      rowsAtRes (aggregateLevel 864000 8640000 10 filt
        (aggregateLevel 86400 864000 10 filt db)) 8640000 := by
    rw [hAgg db,
      aggregateLevel_rowsAtRes 8640000 86400000 10 filt 8640000 _ (by decide)]
  have hL2 : aggregateLevel 864000 8640000 10 filt
      (aggregateMetricsFn filt db) = aggregateMetricsFn filt db :=
    aggregateLevel_id_after 864000 8640000 10 filt (by decide) _
      (aggregateLevel 86400 864000 10 filt db) e2 f2
  have hL3 : aggregateLevel 8640000 86400000 10 filt
      (aggregateMetricsFn filt db) = aggregateMetricsFn filt db :=
    aggregateLevel_id_after 8640000 86400000 10 filt (by decide) _
      (aggregateLevel 864000 8640000 10 filt
        (aggregateLevel 86400 864000 10 filt db)) (by rw [hAgg db])
      (by rw [hAgg db])
  rw [hAgg (aggregateMetricsFn filt db), hL1, hL2, hL3]

end StablecoinWars
